import Mathlib

/- Shallow embedding of the signaling and room-state engine of
   src/src/sockets/index.ts (a Socket.IO video-conferencing hub).
   JavaScript Maps are modelled as association lists in insertion order
   (Map.set keeps the position of an existing key, otherwise appends);
   JavaScript Sets are modelled as duplicate-free lists in insertion order.
   Handlers return the mutated state together with the ordered list of
   emit calls they perform. -/

namespace VideoStream

/-- Boolean membership in a list of strings (JS Set.has). -/
def shas (x : String) : List String → Bool
  | [] => false
  | y :: ys => x == y || shas x ys

/-- JS Set.add: append if absent, keep insertion order. -/
def sadd (x : String) (l : List String) : List String :=
  if shas x l then l else l ++ [x]

/-- JS Set.delete: remove the element. -/
def serase (x : String) (l : List String) : List String :=
  l.filter (fun y => y != x)

/-- JS Map.get on an association list. -/
def alookup {α : Type} (k : String) : List (String × α) → Option α
  | [] => none
  | p :: rest => if p.1 = k then some p.2 else alookup k rest

/-- JS Map.set: replace the value at an existing key in place, else append. -/
def ainsert {α : Type} (k : String) (v : α) : List (String × α) → List (String × α)
  | [] => [(k, v)]
  | p :: rest => if p.1 = k then (k, v) :: rest else p :: ainsert k v rest

/-- JS Map.delete: drop every entry with the key. -/
def aerase {α : Type} (k : String) (l : List (String × α)) : List (String × α) :=
  l.filter (fun p => p.1 != k)

theorem shas_iff (x : String) (l : List String) : shas x l = true ↔ x ∈ l := by
  induction l with
  | nil => simp [shas]
  | cons y ys ih => simp [shas, ih, List.mem_cons]

theorem mem_sadd (x y : String) (l : List String) :
    y ∈ sadd x l ↔ y ∈ l ∨ y = x := by
  unfold sadd
  split
  · rename_i h
    constructor
    · exact Or.inl
    · rintro (hy | rfl)
      · exact hy
      · exact (shas_iff _ _).mp h
  · simp [List.mem_append]

theorem mem_serase (x y : String) (l : List String) :
    y ∈ serase x l ↔ y ∈ l ∧ y ≠ x := by
  simp [serase, List.mem_filter, bne_iff_ne]

theorem nodup_serase (x : String) (l : List String) (h : l.Nodup) :
    (serase x l).Nodup :=
  List.Nodup.filter _ h

theorem nodup_sadd (x : String) (l : List String) (h : l.Nodup) :
    (sadd x l).Nodup := by
  unfold sadd
  split
  · exact h
  · rename_i hx
    refine List.Nodup.append h (List.nodup_singleton x) ?_
    intro a ha hb
    rw [List.mem_singleton] at hb
    subst hb
    exact hx ((shas_iff a l).mpr ha)

theorem alookup_ainsert {α : Type} (k k' : String) (v : α) (l : List (String × α)) :
    alookup k' (ainsert k v l) = if k' = k then some v else alookup k' l := by
  induction l with
  | nil =>
    by_cases h : k' = k
    · simp [ainsert, alookup, h]
    · have hk : ¬ k = k' := fun hc => h hc.symm
      simp [ainsert, alookup, h, hk]
  | cons p rest ih =>
    by_cases hp : p.1 = k
    · by_cases h : k' = k
      · subst h; simp [ainsert, alookup, hp]
      · have hk : ¬ k = k' := fun hc => h hc.symm
        simp [ainsert, alookup, hp, h, hk]
    · by_cases hq : p.1 = k'
      · have h : ¬ k' = k := fun hc => hp (hq.trans hc)
        simp [ainsert, alookup, hp, hq, h]
      · simp [ainsert, alookup, hp, hq, ih]

theorem alookup_aerase {α : Type} (k k' : String) (l : List (String × α)) :
    alookup k' (aerase k l) = if k' = k then none else alookup k' l := by
  induction l with
  | nil => by_cases h : k' = k <;> simp [aerase, alookup, h]
  | cons p rest ih =>
    simp only [aerase, List.filter_cons] at *
    by_cases hp : p.1 = k
    · by_cases h : k' = k
      · subst h; simp [hp, alookup, ih]
      · have hk : ¬ k = k' := fun hc => h hc.symm
        simp [hp, alookup, ih, h, hk]
    · by_cases hq : p.1 = k'
      · have h : ¬ k' = k := fun hc => hp (hq.trans hc)
        simp [hp, hq, alookup, h]
      · simp [hp, hq, alookup, ih]

/-- Presence status of a participant (source: status field, online or offline). -/
inductive Presence where
  | online
  | offline
  deriving DecidableEq, Repr

/-- Participant record (source: interface User). -/
structure User where
  id : String
  name : String
  roomId : String
  joinedAt : String
  lastSeen : String
  status : Presence
  isMuted : Bool
  isVideoOff : Bool
  isHost : Bool
  isRaiseHand : Bool
  deriving DecidableEq, Repr

/-- Connection health record (source: interface ConnectionHealth). -/
structure ConnHealth where
  connectedAt : Nat
  lastPing : Nat
  pingCount : Nat
  reconnectCount : Nat
  isHealthy : Bool
  latency : Option Nat
  deriving DecidableEq, Repr

/-- The shared stores of the engine plus the transport view: the server
    maps connectedUsers, userSessions, rooms, roomHosts, roomCreators and
    connectionHealth from the source, a list of currently connected socket
    ids, and the Socket.IO adapter rooms (every socket sits in the adapter
    room named by its own id, and in each meeting room it joined). -/
structure ServerState where
  connectedUsers : List (String × User)
  userSessions : List (String × List String)
  rooms : List (String × List String)
  roomHosts : List (String × String)
  roomCreators : List (String × String)
  connectionHealth : List (String × ConnHealth)
  liveSockets : List String
  ioRooms : List (String × List String)
  deriving DecidableEq, Repr

/-- Entry of a current-participants snapshot or a user-joined payload. -/
structure PartInfo where
  id : String
  name : String
  isMuted : Bool
  isVideoOff : Bool
  isHost : Bool
  isRaiseHand : Bool
  deriving DecidableEq, Repr

/-- Outbound events the embedded handlers emit. -/
inductive Event where
  | joinError (message : String)
  | userLeft (participantId userName timestamp reason : String)
  | userJoined (info : PartInfo)
  | hostStatusUpdate (hostId hostName : String)
  | currentParticipants (ps : List PartInfo)
  | participantCount (n : Nat)
  | offerEv (payload senderId : String)
  | answerEv (payload senderId : String)
  | iceCandidateEv (payload senderId : String)
  | userMutedEv (participantId : String) (isMuted : Bool)
  | userVideoToggledEv (participantId : String) (isVideoOff : Bool)
  | raiseHandToggledEv (participantId : String) (isRaiseHand : Bool)
  | reactionReceived (emoji senderId userName timestamp : String)
  | chatMessageEv (message senderId userName timestamp : String)
  | hostChanged (newHostId newHostName previousHostId : String)
      (participants : List (String × Bool))
  deriving DecidableEq, Repr

/-- Emission primitives of the transport adapter: socket.emit (to one
    socket), socket.to(room).emit (to the adapter room except the sender),
    io.to(room).emit (to the whole adapter room). -/
inductive EmitTarget where
  | toSelf (sid : String)
  | exceptSender (senderId roomName : String)
  | toIoRoom (roomName : String)
  deriving DecidableEq, Repr

/-- One emit call: a target and an event. -/
structure EmitAction where
  target : EmitTarget
  event : Event
  deriving DecidableEq, Repr

/-- Members of a server-side room set (empty when the room does not exist). -/
def roomMembers (st : ServerState) (r : String) : List String :=
  match alookup r st.rooms with
  | some l => l
  | none => []

/-- Members of a Socket.IO adapter room. -/
def ioRoomMembers (st : ServerState) (r : String) : List String :=
  match alookup r st.ioRooms with
  | some l => l
  | none => []

/-- Whether one emit call is delivered to connection cid, resolving
    adapter rooms: socket.to excludes the sender, io.to does not. -/
def deliversTo (st : ServerState) (a : EmitAction) (cid : String) : Bool :=
  match a.target with
  | EmitTarget.toSelf s => cid == s
  | EmitTarget.exceptSender sender room => shas cid (ioRoomMembers st room) && cid != sender
  | EmitTarget.toIoRoom room => shas cid (ioRoomMembers st room)

/-- user-muted handler (source lines 470-478): looks up the participant
    named in the payload, updates its isMuted flag, and re-broadcasts to
    that participant room except the sender. No authorization check. -/
def userMutedH (st : ServerState) (sockId participantId : String) (isMuted : Bool) :
    ServerState × List EmitAction :=
  match alookup participantId st.connectedUsers with
  | some u =>
      ({ st with connectedUsers :=
           ainsert participantId { u with isMuted := isMuted } st.connectedUsers },
       [⟨EmitTarget.exceptSender sockId u.roomId, Event.userMutedEv participantId isMuted⟩])
  | none => (st, [])

/-- user-video-toggled handler (source lines 481-489). -/
def userVideoToggledH (st : ServerState) (sockId participantId : String) (isVideoOff : Bool) :
    ServerState × List EmitAction :=
  match alookup participantId st.connectedUsers with
  | some u =>
      ({ st with connectedUsers :=
           ainsert participantId { u with isVideoOff := isVideoOff } st.connectedUsers },
       [⟨EmitTarget.exceptSender sockId u.roomId, Event.userVideoToggledEv participantId isVideoOff⟩])
  | none => (st, [])

/-- raise-hand-toggled handler (source lines 492-500). -/
def raiseHandToggledH (st : ServerState) (sockId participantId : String) (isRaiseHand : Bool) :
    ServerState × List EmitAction :=
  match alookup participantId st.connectedUsers with
  | some u =>
      ({ st with connectedUsers :=
           ainsert participantId { u with isRaiseHand := isRaiseHand } st.connectedUsers },
       [⟨EmitTarget.exceptSender sockId u.roomId, Event.raiseHandToggledEv participantId isRaiseHand⟩])
  | none => (st, [])

/-- offer handler (source line 457-459): socket.to(targetId).emit with the
    sender id stamped from the socket. -/
def offerH (st : ServerState) (sockId targetId payload : String) :
    ServerState × List EmitAction :=
  (st, [⟨EmitTarget.exceptSender sockId targetId, Event.offerEv payload sockId⟩])

/-- answer handler (source line 461-463). -/
def answerH (st : ServerState) (sockId targetId payload : String) :
    ServerState × List EmitAction :=
  (st, [⟨EmitTarget.exceptSender sockId targetId, Event.answerEv payload sockId⟩])

/-- ice-candidate handler (source line 465-467). -/
def iceCandidateH (st : ServerState) (sockId targetId payload : String) :
    ServerState × List EmitAction :=
  (st, [⟨EmitTarget.exceptSender sockId targetId, Event.iceCandidateEv payload sockId⟩])

/-- reaction handler (source lines 503-511): resolves the client-supplied
    senderId against connectedUsers and broadcasts to that participant
    whole room via io.to; the delivering socket is not consulted. -/
def reactionH (st : ServerState) (sockId emoji senderId timestamp : String) :
    ServerState × List EmitAction :=
  match alookup senderId st.connectedUsers with
  | some u =>
      (st, [⟨EmitTarget.toIoRoom u.roomId, Event.reactionReceived emoji senderId u.name timestamp⟩])
  | none => (st, [])

/-- chat-message handler (source lines 513-521): same shape as reaction. -/
def chatMessageH (st : ServerState) (sockId message senderId timestamp : String) :
    ServerState × List EmitAction :=
  match alookup senderId st.connectedUsers with
  | some u =>
      (st, [⟨EmitTarget.toIoRoom u.roomId, Event.chatMessageEv message senderId u.name timestamp⟩])
  | none => (st, [])

/-- host-transfer handler (source lines 571-593): demote the calling host,
    promote the target, update the host map, broadcast host-changed with
    the participant vector of the room. -/
def hostTransferH (st : ServerState) (sockId newHostId : String) :
    ServerState × List EmitAction :=
  match alookup sockId st.connectedUsers, alookup newHostId st.connectedUsers with
  | some currentHost, some newHost =>
      if currentHost.isHost = true ∧ currentHost.roomId = newHost.roomId then
        let users1 := ainsert sockId { currentHost with isHost := false } st.connectedUsers
        let users2 := ainsert newHostId { newHost with isHost := true } users1
        ({ st with connectedUsers := users2,
                   roomHosts := ainsert currentHost.roomId newHostId st.roomHosts },
         [⟨EmitTarget.toIoRoom currentHost.roomId,
           Event.hostChanged newHostId newHost.name sockId
             ((roomMembers st currentHost.roomId).map (fun i => (i, i == newHostId)))⟩])
      else (st, [])
  | _, _ => (st, [])

/-- Stale threshold of the periodic sweep (source line 208): 5 minutes. -/
def staleThreshold : Nat := 5 * 60 * 1000

/-- performCleanup (source lines 206-227): for every health record whose
    lastPing is older than 5 minutes, delete the health record and the
    participant record; then delete rooms whose member set is empty.
    Room membership, host map and creator map are not touched; nothing is
    emitted. -/
def performCleanup (now : Nat) (st : ServerState) : ServerState :=
  let staleIds := (st.connectionHealth.filter
      (fun p => staleThreshold < now - p.2.lastPing)).map Prod.fst
  { st with
    connectionHealth := st.connectionHealth.filter
      (fun p => !(staleThreshold < now - p.2.lastPing : Bool)),
    connectedUsers := st.connectedUsers.filter (fun p => !(shas p.1 staleIds)),
    rooms := st.rooms.filter (fun p => !(p.2.isEmpty)) }

/-- The disconnect event handler (source lines 656-728) together with the
    health cleanup registered by monitorConnection (source lines 130-133):
    removes the session-index entry, the room membership (promoting the
    first remaining member when the host left, or deleting the room, host
    and creator entries when the room emptied), the participant record and
    the health record, then emits user-left and participant-count. -/
def disconnectHandler (now reason : String) (st : ServerState) (sockId : String) :
    ServerState × List EmitAction :=
  match alookup sockId st.connectedUsers with
  | none => ({ st with connectionHealth := aerase sockId st.connectionHealth }, [])
  | some user =>
    let sessions1 :=
      match alookup user.name st.userSessions with
      | some sset =>
          let s' := serase sockId sset
          if s'.isEmpty then aerase user.name st.userSessions
          else ainsert user.name s' st.userSessions
      | none => st.userSessions
    match alookup user.roomId st.rooms with
    | none =>
      let cnt := 0
      ({ st with connectedUsers := aerase sockId st.connectedUsers,
                 userSessions := sessions1,
                 connectionHealth := aerase sockId st.connectionHealth },
       [⟨EmitTarget.exceptSender sockId user.roomId,
         Event.userLeft sockId user.name now reason⟩,
        ⟨EmitTarget.toIoRoom user.roomId, Event.participantCount cnt⟩])
    | some rs =>
      let rs' := serase sockId rs
      let promo :
          List (String × User) × List (String × String) × List EmitAction :=
        if user.isHost = true ∧ rs' ≠ [] then
          match rs'.head? with
          | some nextHostId =>
            (match alookup nextHostId st.connectedUsers with
             | some nextHost =>
                 (ainsert nextHostId { nextHost with isHost := true } st.connectedUsers,
                  ainsert user.roomId nextHostId st.roomHosts,
                  [⟨EmitTarget.toIoRoom user.roomId,
                    Event.hostChanged nextHostId nextHost.name sockId
                      (rs'.map (fun i => (i, i == nextHostId)))⟩])
             | none => (st.connectedUsers, st.roomHosts, []))
          | none => (st.connectedUsers, st.roomHosts, [])
        else (st.connectedUsers, st.roomHosts, [])
      let rooms2 :=
        if rs'.isEmpty then aerase user.roomId (ainsert user.roomId rs' st.rooms)
        else ainsert user.roomId rs' st.rooms
      let hosts2 := if rs'.isEmpty then aerase user.roomId promo.2.1 else promo.2.1
      let creators2 := if rs'.isEmpty then aerase user.roomId st.roomCreators else st.roomCreators
      let cnt :=
        match alookup user.roomId rooms2 with
        | some l => l.length
        | none => 0
      ({ st with connectedUsers := aerase sockId promo.1,
                 userSessions := sessions1,
                 rooms := rooms2,
                 roomHosts := hosts2,
                 roomCreators := creators2,
                 connectionHealth := aerase sockId st.connectionHealth },
       promo.2.2 ++
       [⟨EmitTarget.exceptSender sockId user.roomId,
         Event.userLeft sockId user.name now reason⟩,
        ⟨EmitTarget.toIoRoom user.roomId, Event.participantCount cnt⟩])

/-- Transport-level disconnect (socket.disconnect or network close): the
    socket leaves every adapter room and stops being live, then the
    disconnect handler runs. -/
def transportDisconnect (now reason : String) (st : ServerState) (sid : String) :
    ServerState × List EmitAction :=
  let st1 := { st with
    liveSockets := serase sid st.liveSockets,
    ioRooms := st.ioRooms.map (fun p => (p.1, serase sid p.2)) }
  disconnectHandler now reason st1 sid

/-- Reason string of a preemption user-left (source line 312). -/
def reasonDuplicate : String := "duplicate-session"

/-- Reason string of a stale-scan user-left (source line 366). -/
def reasonStale : String := "stale-connection"

/-- One step of the duplicate-session preemption loop inside join-room
    (source lines 290-324): for an old session id other than the joiner,
    remove it from its room set, delete its participant and health
    records, emit user-left with reason duplicate-session to the old room
    via io.to, then force-disconnect the old socket. -/
def preemptOld (now userName newSockId : String)
    (acc : ServerState × List EmitAction) (oldId : String) :
    ServerState × List EmitAction :=
  if oldId = newSockId then acc
  else
    let st := acc.1
    let step1 : ServerState × List EmitAction :=
      match alookup oldId st.connectedUsers with
      | some oldUser =>
          let rooms' :=
            match alookup oldUser.roomId st.rooms with
            | some s => ainsert oldUser.roomId (serase oldId s) st.rooms
            | none => st.rooms
          ({ st with rooms := rooms',
                     connectedUsers := aerase oldId st.connectedUsers,
                     connectionHealth := aerase oldId st.connectionHealth },
           [⟨EmitTarget.toIoRoom oldUser.roomId,
             Event.userLeft oldId userName now reasonDuplicate⟩])
      | none => (st, [])
    let step2 : ServerState × List EmitAction :=
      if shas oldId step1.1.liveSockets then
        transportDisconnect now reasonDuplicate step1.1 oldId
      else (step1.1, [])
    (step2.1, acc.2 ++ step1.2 ++ step2.2)

/-- One step of the stale-socket removal loop inside join-room (source
    lines 355-368): delete the stale id from the target room set and from
    the user and health maps, then emit user-left with reason
    stale-connection; the name is looked up after the record was deleted,
    exactly as the source does. -/
def staleRemove (now sockId roomId : String)
    (acc : ServerState × List EmitAction) (m : String) :
    ServerState × List EmitAction :=
  let st := acc.1
  let st' := { st with
    rooms := ainsert roomId (serase m (roomMembers st roomId)) st.rooms,
    connectedUsers := aerase m st.connectedUsers,
    connectionHealth := aerase m st.connectionHealth }
  let nm :=
    match alookup m st'.connectedUsers with
    | some u => if u.name = "" then "Unknown" else u.name
    | none => "Unknown"
  (st', acc.2 ++
    [⟨EmitTarget.exceptSender sockId roomId, Event.userLeft m nm now reasonStale⟩])

/-- JS truthiness of an optional string (undefined and the empty string
    are falsy). -/
def jsTruthy : Option String → Bool
  | none => false
  | some s => s != ""

/-- Room creation step of join-room (source lines 269-276): create the
    room lazily and record the creator when a truthy userId arrives with
    a fresh room. -/
def ensureRoom (st : ServerState) (roomId : String) (userId : Option String) :
    ServerState :=
  match alookup roomId st.rooms with
  | some _ => st
  | none =>
    let creators :=
      if jsTruthy userId then
        match userId with
        | some uid => ainsert roomId uid st.roomCreators
        | none => st.roomCreators
      else st.roomCreators
    { st with rooms := ainsert roomId [] st.rooms, roomCreators := creators }

/-- Cleanup phase of join-room (source lines 285-372): duplicate-session
    preemption, session registration, socket.join, and the stale-socket
    scan and removal over the target room. -/
def joinCleanup (now sockId roomId userName : String) (st1 : ServerState) :
    ServerState × List EmitAction :=
  let afterPreempt : ServerState × List EmitAction :=
    match alookup userName st1.userSessions with
    | some sess =>
      if sess.isEmpty then (st1, [])
      else
        let folded := sess.foldl (preemptOld now userName sockId) (st1, [])
        ({ folded.1 with userSessions := ainsert userName [] folded.1.userSessions },
         folded.2)
    | none => (st1, [])
  let st2 := afterPreempt.1
  let st3 := { st2 with userSessions :=
    (match alookup userName st2.userSessions with
     | some s => ainsert userName (sadd sockId s) st2.userSessions
     | none => ainsert userName [sockId] st2.userSessions) }
  let st4 := { st3 with ioRooms :=
    (match alookup roomId st3.ioRooms with
     | some s => ainsert roomId (sadd sockId s) st3.ioRooms
     | none => ainsert roomId [sockId] st3.ioRooms) }
  let socketsToRemove := (roomMembers st4 roomId).filter (fun m =>
    !(shas m st4.liveSockets) ||
    (match alookup m st4.connectedUsers with
     | some u => u.name == userName && m != sockId
     | none => false))
  let afterScan := socketsToRemove.foldl (staleRemove now sockId roomId) (st4, [])
  (afterScan.1, afterPreempt.2 ++ afterScan.2)

/-- Creator check of join-room (source line 379): the joiner carries a
    truthy userId equal to the recorded room creator. -/
def isCreatorB (userId : Option String) (st5 : ServerState) (roomId : String) : Bool :=
  jsTruthy userId &&
  (match userId with
   | some uid => alookup roomId st5.roomCreators == some uid
   | none => false)

/-- Current-host check of join-room (source lines 380-381): the host map
    names a truthy id that still resolves to a participant record. -/
def currentHostExistsB (st5 : ServerState) (roomId : String) : Bool :=
  match alookup roomId st5.roomHosts with
  | some h => h != "" && (alookup h st5.connectedUsers).isSome
  | none => false

/-- Host decision of join-room (source line 382): creator, or empty room,
    or no live current host. -/
def shouldBeHostB (userId : Option String) (st5 : ServerState) (roomId : String) : Bool :=
  isCreatorB userId st5 roomId || (roomMembers st5 roomId).isEmpty ||
    !(currentHostExistsB st5 roomId)

/-- The participant record join-room constructs (source lines 384-395). -/
def joinNewUser (now sockId roomId userName : String) (userId : Option String)
    (st5 : ServerState) : User :=
  { id := sockId, name := userName, roomId := roomId,
    joinedAt := now, lastSeen := now, status := Presence.online,
    isMuted := false, isVideoOff := false,
    isHost := shouldBeHostB userId st5 roomId, isRaiseHand := false }

/-- Finalization phase of join-room (source lines 374-453): host
    determination, participant insertion, optional demotion of the old
    host, and the user-joined, host-status-update, current-participants
    and participant-count emissions. -/
def joinFinalize (now sockId roomId userName : String) (userId : Option String)
    (st5 : ServerState) : ServerState × List EmitAction :=
  let mem5 := roomMembers st5 roomId
  let isCreator : Bool := isCreatorB userId st5 roomId
  let currentHostId := alookup roomId st5.roomHosts
  let currentHostExists : Bool := currentHostExistsB st5 roomId
  let shouldBeHost := shouldBeHostB userId st5 roomId
  let newUser : User := joinNewUser now sockId roomId userName userId st5
  let st6 := { st5 with
    rooms := ainsert roomId (sadd sockId mem5) st5.rooms,
    connectedUsers := ainsert sockId newUser st5.connectedUsers }
  let st7 :=
    if shouldBeHost then
      let st6' :=
        if isCreator && currentHostExists && (currentHostId != some sockId) then
          match currentHostId with
          | some h =>
            (match alookup h st6.connectedUsers with
             | some oldHost =>
                 { st6 with connectedUsers :=
                     ainsert h { oldHost with isHost := false } st6.connectedUsers }
             | none => st6)
          | none => st6
        else st6
      { st6' with roomHosts := ainsert roomId sockId st6'.roomHosts }
    else st6
  let emsJoin : List EmitAction :=
    [⟨EmitTarget.exceptSender sockId roomId,
      Event.userJoined ⟨sockId, userName, newUser.isMuted, newUser.isVideoOff,
        newUser.isHost, newUser.isRaiseHand⟩⟩]
  let emsHost : List EmitAction :=
    if newUser.isHost then
      [⟨EmitTarget.toIoRoom roomId, Event.hostStatusUpdate sockId userName⟩]
    else []
  let parts := ((roomMembers st7 roomId).filter (fun i => i != sockId)).map
    (fun i =>
      match alookup i st7.connectedUsers with
      | some u =>
          ⟨i, (if u.name = "" then "User " ++ i else u.name),
           u.isMuted, u.isVideoOff, u.isHost, u.isRaiseHand⟩
      | none => (⟨i, "User " ++ i, false, false, false, false⟩ : PartInfo))
  let emsCur : List EmitAction := [⟨EmitTarget.toSelf sockId, Event.currentParticipants parts⟩]
  let emsCnt : List EmitAction :=
    [⟨EmitTarget.toIoRoom roomId, Event.participantCount (roomMembers st7 roomId).length⟩]
  (st7, emsJoin ++ emsHost ++ emsCur ++ emsCnt)

/-- join-room handler (source lines 249-454), in source order: input
    validation, server capacity, room creation (recording the creator),
    room capacity (checked before any cleanup), then the cleanup phase
    (duplicate-session preemption and stale-socket removal) and the
    finalization phase (host determination, insertion, emissions). -/
def joinRoom (now : String) (st : ServerState)
    (sockId roomId userName : String) (userId : Option String) :
    ServerState × List EmitAction :=
  if roomId = "" ∨ userName = "" then
    (st, [⟨EmitTarget.toSelf sockId, Event.joinError "Invalid room ID or username"⟩])
  else if userName.toList.contains '-' ∧ 10 < userName.length then
    (st, [⟨EmitTarget.toSelf sockId, Event.joinError "Invalid username format"⟩])
  else if 1000 ≤ st.connectedUsers.length then
    (st, [⟨EmitTarget.toSelf sockId, Event.joinError "Server at capacity"⟩])
  else
    let st1 := ensureRoom st roomId userId
    if 50 ≤ (roomMembers st1 roomId).length then
      (st1, [⟨EmitTarget.toSelf sockId, Event.joinError "Room is full"⟩])
    else
      let c := joinCleanup now sockId roomId userName st1
      let f := joinFinalize now sockId roomId userName userId c.1
      (f.1, c.2 ++ f.2)

/-- Builder for a participant record as join-room creates it, with chosen
    host flag. -/
def mkUser (i n r : String) (h : Bool) : User :=
  { id := i, name := n, roomId := r, joinedAt := "t0", lastSeen := "t0",
    status := Presence.online, isMuted := false, isVideoOff := false,
    isHost := h, isRaiseHand := false }

/-- Builder for a health record with a given lastPing. -/
def mkHealth (lp : Nat) : ConnHealth :=
  { connectedAt := 0, lastPing := lp, pingCount := 0, reconnectCount := 0,
    isHealthy := true, latency := none }

/-- Concrete state used by witnesses: Alice (p1, host) and Bob (p2) sit in
    room RX; sX is a live connection with no participant record and in no
    meeting room. -/
def wSt : ServerState :=
  { connectedUsers := [("p1", mkUser "p1" "Alice" "RX" true),
                       ("p2", mkUser "p2" "Bob" "RX" false)],
    userSessions := [("Alice", ["p1"]), ("Bob", ["p2"])],
    rooms := [("RX", ["p1", "p2"])],
    roomHosts := [("RX", "p1")],
    roomCreators := [],
    connectionHealth := [("p1", mkHealth 0), ("p2", mkHealth 0)],
    liveSockets := ["p1", "p2", "sX"],
    ioRooms := [("p1", ["p1"]), ("p2", ["p2"]), ("sX", ["sX"]),
                ("RX", ["p1", "p2"])] }

/-- C10: the chat-message and reaction handlers ignore the delivering
    connection entirely: any two senders produce identical results, and
    whenever the client-supplied senderId resolves to a live participant
    the event is broadcast, enriched with that participant name, to that
    participant whole room, whatever connection delivered it. -/
theorem chat_reaction_sender_independent
    (st : ServerState) (s1 s2 message emoji senderId ts : String) :
    chatMessageH st s1 message senderId ts = chatMessageH st s2 message senderId ts ∧
    reactionH st s1 emoji senderId ts = reactionH st s2 emoji senderId ts ∧
    (∀ u, alookup senderId st.connectedUsers = some u →
      ∀ sockId,
        chatMessageH st sockId message senderId ts =
          (st, [⟨EmitTarget.toIoRoom u.roomId,
                 Event.chatMessageEv message senderId u.name ts⟩]) ∧
        reactionH st sockId emoji senderId ts =
          (st, [⟨EmitTarget.toIoRoom u.roomId,
                 Event.reactionReceived emoji senderId u.name ts⟩])) := by
  refine ⟨?_, ?_, ?_⟩
  · unfold chatMessageH
    cases alookup senderId st.connectedUsers <;> rfl
  · unfold reactionH
    cases alookup senderId st.connectedUsers <;> rfl
  · intro u hu sockId
    unfold chatMessageH reactionH
    rw [hu]
    exact ⟨rfl, rfl⟩

/-- C10 witness: the roomless live connection sX makes the engine
    broadcast a chat message attributed to Alice (p1) to the whole of
    room RX. -/
theorem chat_reaction_sender_independent_witness :
    chatMessageH wSt "sX" "hi" "p1" "t1" =
      (wSt, [⟨EmitTarget.toIoRoom "RX", Event.chatMessageEv "hi" "p1" "Alice" "t1"⟩]) ∧
    alookup "sX" wSt.connectedUsers = none := by
  constructor
  · exact ((chat_reaction_sender_independent wSt "sX" "sX" "hi" "e" "p1" "t1").2.2
      (mkUser "p1" "Alice" "RX" true) (by decide) "sX").1
  · decide

/-- C4 counterexample: sX has no participant record at all, so it is
    neither the participant p1 nor a host in p1 room; the claim says such
    a sender causes no state change and no emission, but the user-muted
    handler updates p1 and broadcasts anyway. -/
theorem toggle_no_auth_counterexample :
    alookup "sX" wSt.connectedUsers = none ∧
    (userMutedH wSt "sX" "p1" true).2 =
      [⟨EmitTarget.exceptSender "sX" "RX", Event.userMutedEv "p1" true⟩] ∧
    alookup "p1" (userMutedH wSt "sX" "p1" true).1.connectedUsers =
      some { (mkUser "p1" "Alice" "RX" true) with isMuted := true } := by
  refine ⟨by decide, by decide, by decide⟩

/-- C4 amended: the user-muted, user-video-toggled and raise-hand-toggled
    handlers perform no authorization check: whenever the named
    participant record exists the flag is updated and the event is
    re-broadcast to that participant room except the sender, for every
    sender; when it does not exist nothing changes and nothing is
    emitted. -/
theorem toggle_handlers_unconditional
    (st : ServerState) (sockId pid : String) (b : Bool) :
    (∀ u, alookup pid st.connectedUsers = some u →
      userMutedH st sockId pid b =
        ({ st with connectedUsers := ainsert pid { u with isMuted := b } st.connectedUsers },
         [⟨EmitTarget.exceptSender sockId u.roomId, Event.userMutedEv pid b⟩]) ∧
      userVideoToggledH st sockId pid b =
        ({ st with connectedUsers := ainsert pid { u with isVideoOff := b } st.connectedUsers },
         [⟨EmitTarget.exceptSender sockId u.roomId, Event.userVideoToggledEv pid b⟩]) ∧
      raiseHandToggledH st sockId pid b =
        ({ st with connectedUsers := ainsert pid { u with isRaiseHand := b } st.connectedUsers },
         [⟨EmitTarget.exceptSender sockId u.roomId, Event.raiseHandToggledEv pid b⟩])) ∧
    (alookup pid st.connectedUsers = none →
      userMutedH st sockId pid b = (st, []) ∧
      userVideoToggledH st sockId pid b = (st, []) ∧
      raiseHandToggledH st sockId pid b = (st, [])) := by
  constructor
  · intro u hu
    unfold userMutedH userVideoToggledH raiseHandToggledH
    rw [hu]
    exact ⟨rfl, rfl, rfl⟩
  · intro hn
    unfold userMutedH userVideoToggledH raiseHandToggledH
    rw [hn]
    exact ⟨rfl, rfl, rfl⟩

/-- C4 witness: instantiation of the amended theorem at the concrete
    unauthorized sender sX and participant p1 of wSt. -/
theorem toggle_handlers_unconditional_witness :
    userMutedH wSt "sX" "p1" true =
      ({ wSt with connectedUsers :=
           (ainsert "p1" { (mkUser "p1" "Alice" "RX" true) with isMuted := true }
             wSt.connectedUsers) },
       [⟨EmitTarget.exceptSender "sX" "RX", Event.userMutedEv "p1" true⟩]) :=
  ((toggle_handlers_unconditional wSt "sX" "p1" true).1
    (mkUser "p1" "Alice" "RX" true) (by decide)).1

/-- C5 counterexample: in wSt the connection named p1 exists and is live,
    yet an offer from p1 with targetId p1 is delivered to nobody: the
    relay excludes the sender from the adapter room named targetId, so no
    offer event reaches the connection named targetId, contradicting the
    claim that exactly one such event is emitted to it. -/
theorem signaling_relay_counterexample :
    shas "p1" wSt.liveSockets = true ∧
    (offerH wSt "p1" "p1" "X").2 =
      [⟨EmitTarget.exceptSender "p1" "p1", Event.offerEv "X" "p1"⟩] ∧
    deliversTo wSt ⟨EmitTarget.exceptSender "p1" "p1", Event.offerEv "X" "p1"⟩ "p1" = false ∧
    ioRoomMembers wSt "p1" = ["p1"] := by
  refine ⟨by decide, by decide, by decide, by decide⟩

/-- C5 amended: each signaling relay emits exactly one event, carrying the
    payload and a senderId stamped from the sending connection (any
    client-supplied sender field is ignored), to the members of the
    adapter room named targetId except the sender; when targetId is the
    private room of a live connection other than the sender this is
    exactly that connection, and when targetId names no adapter room
    nothing is delivered and no error is sent to the sender; the state is
    unchanged. -/
theorem signaling_relay_delivery
    (st : ServerState) (sockId targetId payload : String) :
    offerH st sockId targetId payload =
      (st, [⟨EmitTarget.exceptSender sockId targetId, Event.offerEv payload sockId⟩]) ∧
    answerH st sockId targetId payload =
      (st, [⟨EmitTarget.exceptSender sockId targetId, Event.answerEv payload sockId⟩]) ∧
    iceCandidateH st sockId targetId payload =
      (st, [⟨EmitTarget.exceptSender sockId targetId, Event.iceCandidateEv payload sockId⟩]) ∧
    (∀ ev cid,
      deliversTo st ⟨EmitTarget.exceptSender sockId targetId, ev⟩ cid = true ↔
        (cid ∈ ioRoomMembers st targetId ∧ cid ≠ sockId)) ∧
    (ioRoomMembers st targetId = [targetId] → targetId ≠ sockId →
      ∀ ev cid,
        deliversTo st ⟨EmitTarget.exceptSender sockId targetId, ev⟩ cid = true ↔
          cid = targetId) ∧
    (alookup targetId st.ioRooms = none →
      ∀ ev cid,
        deliversTo st ⟨EmitTarget.exceptSender sockId targetId, ev⟩ cid = false) := by
  refine ⟨rfl, rfl, rfl, ?_, ?_, ?_⟩
  · intro ev cid
    simp [deliversTo, shas_iff, bne_iff_ne]
  · intro hroom hne ev cid
    simp only [deliversTo, Bool.and_eq_true, shas_iff, hroom, List.mem_singleton,
      bne_iff_ne, ne_eq, decide_eq_true_eq]
    constructor
    · rintro ⟨rfl, _⟩; rfl
    · rintro rfl; exact ⟨rfl, hne⟩
  · intro hnone ev cid
    simp [deliversTo, ioRoomMembers, hnone, shas]

/-- C5 witness: instantiation of the amended theorem in wSt, relaying an
    offer from p2 to p1: delivered to p1 and to nobody else. -/
theorem signaling_relay_delivery_witness :
    (deliversTo wSt ⟨EmitTarget.exceptSender "p2" "p1", Event.offerEv "X" "p2"⟩ "p1" = true ↔
      ("p1" : String) = "p1") ∧
    (deliversTo wSt ⟨EmitTarget.exceptSender "p2" "p1", Event.offerEv "X" "p2"⟩ "p2" = true ↔
      ("p2" : String) = "p1") := by
  constructor
  · exact (signaling_relay_delivery wSt "p2" "p1" "X").2.2.2.2.1 (by decide) (by decide)
      (Event.offerEv "X" "p2") "p1"
  · exact (signaling_relay_delivery wSt "p2" "p1" "X").2.2.2.2.1 (by decide) (by decide)
      (Event.offerEv "X" "p2") "p2"

/-- C9: if the current host a of a room (host map pointing at a) transfers
    the host role to a participant b of the same room, and b then
    transfers it back to a, the host-map entry and the two participant
    records, host flags included, return exactly to their values before
    the first transfer. -/
theorem host_transfer_roundtrip
    (st : ServerState) (a b : String) (ua ub : User)
    (ha : alookup a st.connectedUsers = some ua)
    (hahost : ua.isHost = true)
    (hb : alookup b st.connectedUsers = some ub)
    (hroom : ub.roomId = ua.roomId)
    (hbhost : ub.isHost = false)
    (hmap : alookup ua.roomId st.roomHosts = some a) :
    alookup a (hostTransferH (hostTransferH st a b).1 b a).1.connectedUsers = some ua ∧
    alookup b (hostTransferH (hostTransferH st a b).1 b a).1.connectedUsers = some ub ∧
    alookup ua.roomId (hostTransferH (hostTransferH st a b).1 b a).1.roomHosts = some a := by
  have hab : a ≠ b := by
    intro h
    rw [h, hb] at ha
    injection ha with h2
    rw [← h2, hbhost] at hahost
    exact Bool.false_ne_true hahost
  have hfirst : hostTransferH st a b =
      ({ st with
          connectedUsers := ainsert b { ub with isHost := true }
            (ainsert a { ua with isHost := false } st.connectedUsers),
          roomHosts := ainsert ua.roomId b st.roomHosts },
       [⟨EmitTarget.toIoRoom ua.roomId,
         Event.hostChanged b ub.name a
           ((roomMembers st ua.roomId).map (fun i => (i, i == b)))⟩]) := by
    unfold hostTransferH
    rw [ha, hb]
    simp [hahost, hroom]
  rw [hfirst]
  have hb1 : alookup b (ainsert b { ub with isHost := true }
      (ainsert a { ua with isHost := false } st.connectedUsers)) =
      some { ub with isHost := true } := by
    rw [alookup_ainsert]; simp
  have ha1 : alookup a (ainsert b { ub with isHost := true }
      (ainsert a { ua with isHost := false } st.connectedUsers)) =
      some { ua with isHost := false } := by
    rw [alookup_ainsert, if_neg hab, alookup_ainsert, if_pos rfl]
  simp only [hostTransferH, hb1, ha1]
  rw [if_pos (show (True ∧ ub.roomId = ua.roomId) from ⟨trivial, hroom⟩)]
  refine ⟨?_, ?_, ?_⟩
  · rw [alookup_ainsert, if_pos rfl]
    congr 1
    cases ua
    simp_all
  · rw [alookup_ainsert, if_neg (Ne.symm hab), alookup_ainsert, if_pos rfl]
    congr 1
    cases ub
    simp_all
  · rw [alookup_ainsert, if_pos hroom.symm]

/-- C9 witness: round trip between Alice (p1, host of RX) and Bob (p2)
    in the concrete state wSt. -/
theorem host_transfer_roundtrip_witness :
    alookup "p1" (hostTransferH (hostTransferH wSt "p1" "p2").1 "p2" "p1").1.connectedUsers =
      some (mkUser "p1" "Alice" "RX" true) ∧
    alookup "p2" (hostTransferH (hostTransferH wSt "p1" "p2").1 "p2" "p1").1.connectedUsers =
      some (mkUser "p2" "Bob" "RX" false) ∧
    alookup "RX" (hostTransferH (hostTransferH wSt "p1" "p2").1 "p2" "p1").1.roomHosts =
      some "p1" :=
  host_transfer_roundtrip wSt "p1" "p2" (mkUser "p1" "Alice" "RX" true)
    (mkUser "p2" "Bob" "RX" false) (by decide) (by decide) (by decide)
    (by decide) (by decide) (by decide)

theorem alookup_none_iff {α : Type} (k : String) (l : List (String × α)) :
    alookup k l = none ↔ k ∉ l.map Prod.fst := by
  induction l with
  | nil => simp [alookup]
  | cons p rest ih =>
    rcases p with ⟨a, w⟩
    by_cases hp : a = k
    · subst hp; simp [alookup]
    · simp only [alookup, if_neg hp, List.map_cons, List.mem_cons]
      constructor
      · intro h hc
        rcases hc with h1 | h2
        · exact hp h1.symm
        · exact (ih.mp h) h2
      · intro h
        exact ih.mpr (fun h2 => h (Or.inr h2))

theorem alookup_mem {α : Type} (k : String) (v : α) (l : List (String × α))
    (h : alookup k l = some v) : (k, v) ∈ l := by
  induction l with
  | nil => simp [alookup] at h
  | cons p rest ih =>
    rcases p with ⟨a, w⟩
    by_cases hp : a = k
    · subst hp
      simp only [alookup, if_pos rfl] at h
      injection h with h
      subst h
      exact List.mem_cons_self _ _
    · simp only [alookup, if_neg hp] at h
      exact List.mem_cons_of_mem _ (ih h)

theorem alookup_filter_nodup {α : Type} (k : String) (p : String × α → Bool)
    (l : List (String × α)) (hnd : (l.map Prod.fst).Nodup) :
    alookup k (l.filter p) =
      (alookup k l).bind (fun v => if p (k, v) = true then some v else none) := by
  induction l with
  | nil => simp [alookup]
  | cons q rest ih =>
    rw [List.map_cons] at hnd
    rcases List.nodup_cons.mp hnd with ⟨hq, hrest⟩
    have hpf : p q = true ∨ p q = false := by
      cases p q
      · exact Or.inr rfl
      · exact Or.inl rfl
    by_cases hqk : q.1 = k
    · subst hqk
      rcases hpf with hp | hp
      · simp [List.filter_cons, hp, alookup]
      · have hnone : alookup q.1 (rest.filter p) = none := by
          rw [alookup_none_iff]
          intro hmem
          rcases List.mem_map.mp hmem with ⟨e, he, hfst⟩
          exact hq (hfst ▸ List.mem_map_of_mem Prod.fst (List.mem_of_mem_filter he))
        simp [List.filter_cons, hp, alookup, hnone]
    · rcases hpf with hp | hp
      · simp [List.filter_cons, hp, alookup, hqk, ih hrest]
      · simp [List.filter_cons, hp, alookup, hqk, ih hrest]

/-- Concrete state with a single participant c1 in room R whose health
    record is five minutes stale at time 1000000. -/
def wStale : ServerState :=
  { connectedUsers := [("c1", mkUser "c1" "Alice" "R" true)],
    userSessions := [("Alice", ["c1"])],
    rooms := [("R", ["c1"])],
    roomHosts := [("R", "c1")],
    roomCreators := [],
    connectionHealth := [("c1", mkHealth 0)],
    liveSockets := ["c1"],
    ioRooms := [("c1", ["c1"]), ("R", ["c1"])] }

/-- C3 counterexample: at the sweep tick the stale connection c1 loses its
    participant and health records, but its membership in room R is NOT
    removed, so after the sweep the id c1 remaining in the room set does
    not resolve to any participant record, contradicting both halves of
    the claim. -/
theorem sweep_leaves_membership_counterexample :
    staleThreshold < 1000000 - (mkHealth 0).lastPing ∧
    alookup "c1" wStale.connectionHealth = some (mkHealth 0) ∧
    roomMembers (performCleanup 1000000 wStale) "R" = ["c1"] ∧
    alookup "c1" (performCleanup 1000000 wStale).connectedUsers = none ∧
    alookup "c1" (performCleanup 1000000 wStale).connectionHealth = none := by
  refine ⟨by decide, by decide, by decide, by decide, by decide⟩

/-- C3 amended: for every connection whose health record lastPing is older
    than five minutes at a sweep tick, the sweep deletes the participant
    record and the health record and emits nothing (the sweep performs no
    emission at all), but it does not remove the connection from its room
    set: room sets are left untouched except that empty rooms are
    deleted, and the host, creator and session maps are unchanged, so a
    swept id can keep dangling in its room set. -/
theorem sweep_characterization (st : ServerState) (now : Nat)
    (hh : (st.connectionHealth.map Prod.fst).Nodup)
    (hu : (st.connectedUsers.map Prod.fst).Nodup)
    (hr : (st.rooms.map Prod.fst).Nodup) :
    (∀ cid h, alookup cid st.connectionHealth = some h →
      staleThreshold < now - h.lastPing →
        alookup cid (performCleanup now st).connectionHealth = none ∧
        alookup cid (performCleanup now st).connectedUsers = none) ∧
    (∀ r l, alookup r (performCleanup now st).rooms = some l ↔
        (alookup r st.rooms = some l ∧ l ≠ [])) ∧
    (performCleanup now st).roomHosts = st.roomHosts ∧
    (performCleanup now st).roomCreators = st.roomCreators ∧
    (performCleanup now st).userSessions = st.userSessions := by
  refine ⟨?_, ?_, rfl, rfl, rfl⟩
  · intro cid h hlook hstale
    constructor
    · show alookup cid (st.connectionHealth.filter _) = none
      rw [alookup_filter_nodup cid _ _ hh, hlook]
      simp
      omega
    · show alookup cid (st.connectedUsers.filter _) = none
      rw [alookup_filter_nodup cid _ _ hu]
      cases hcu : alookup cid st.connectedUsers with
      | none => rfl
      | some u =>
        have hmem : cid ∈ ((st.connectionHealth.filter
            (fun p => staleThreshold < now - p.2.lastPing)).map Prod.fst) := by
          refine List.mem_map.mpr ⟨(cid, h), ?_, rfl⟩
          exact List.mem_filter.mpr ⟨alookup_mem cid h _ hlook, by simpa using hstale⟩
        simp [shas_iff, hmem]
  · intro r l
    show alookup r (st.rooms.filter _) = some l ↔ _
    rw [alookup_filter_nodup r _ _ hr]
    cases hro : alookup r st.rooms with
    | none => simp
    | some l0 =>
      by_cases hl0 : l0.isEmpty
      · simp only [Option.bind_eq_bind, Option.some_bind, hl0, Bool.not_true,
          Bool.false_eq_true, if_false]
        constructor
        · intro hc; cases hc
        · rintro ⟨hc, hne⟩
          injection hc with hc
          exact absurd (hc ▸ List.isEmpty_iff.mp hl0) hne
      · have hl0' : l0 ≠ [] := fun hc => hl0 (by simp [hc])
        have hl0f : l0.isEmpty = false := by
          cases hh0 : l0.isEmpty
          · rfl
          · exact absurd hh0 hl0
        simp only [Option.bind_eq_bind, Option.some_bind, hl0f, Bool.not_false, if_pos]
        constructor
        · intro hc
          exact ⟨hc, fun hne => hl0' (by injection hc with hc2; rw [hc2, hne])⟩
        · rintro ⟨hc, _⟩
          exact hc

/-- C3 witness: instantiation of the amended sweep theorem at the concrete
    stale state wStale, showing the record removals and that room R
    survives with its member list untouched. -/
theorem sweep_characterization_witness :
    (alookup "c1" (performCleanup 1000000 wStale).connectionHealth = none ∧
     alookup "c1" (performCleanup 1000000 wStale).connectedUsers = none) ∧
    (alookup "R" (performCleanup 1000000 wStale).rooms = some ["c1"] ↔
      (alookup "R" wStale.rooms = some ["c1"] ∧ (["c1"] : List String) ≠ [])) :=
  ⟨(sweep_characterization wStale 1000000 (by decide) (by decide) (by decide)).1
      "c1" (mkHealth 0) (by decide) (by decide),
   (sweep_characterization wStale 1000000 (by decide) (by decide) (by decide)).2.1
      "R" ["c1"]⟩

/-- Concrete state for the stale-scan: z1 (display name Alice, host of R1)
    has a record but its socket is no longer live; b2 is a live fresh
    connection about to join R1 as Bob. -/
def wSt8 : ServerState :=
  { connectedUsers := [("z1", mkUser "z1" "Alice" "R1" true)],
    userSessions := [("Alice", ["z1"])],
    rooms := [("R1", ["z1"])],
    roomHosts := [("R1", "z1")],
    roomCreators := [],
    connectionHealth := [("z1", mkHealth 5)],
    liveSockets := ["b2"],
    ioRooms := [("b2", ["b2"]), ("R1", ["z1"])] }

/-- C8: the stale-scan removal emits user-left with userName looked up
    AFTER the participant record was deleted, so the field is always the
    fallback Unknown instead of the removed participant display name: in
    wSt8 the dead member z1 is named Alice, yet the emitted user-left
    carries userName Unknown with reason stale-connection. -/
theorem stale_scan_unknown_name_bug :
    alookup "z1" wSt8.connectedUsers = some (mkUser "z1" "Alice" "R1" true) ∧
    (mkUser "z1" "Alice" "R1" true).name = "Alice" ∧
    shas "z1" wSt8.liveSockets = false ∧
    (joinRoom "t1" wSt8 "b2" "R1" "Bob" none).2.head? =
      some ⟨EmitTarget.exceptSender "b2" "R1",
            Event.userLeft "z1" "Unknown" "t1" reasonStale⟩ := by
  refine ⟨by decide, by decide, by decide, by decide⟩

/-- C6: when a connection holding a host-flagged record disconnects and
    the room still has members, the first remaining member in iteration
    order is promoted: its record becomes host-flagged, the host map of
    the room now names it, and a host-changed event carrying newHostId,
    newHostName, previousHostId and the full participants vector is
    broadcast to the room. -/
theorem host_disconnect_promotes
    (st : ServerState) (now reason sockId : String) (u : User) (rs : List String)
    (v : User) (h : String)
    (hm : alookup sockId st.connectedUsers = some u)
    (hhost : u.isHost = true)
    (hr : alookup u.roomId st.rooms = some rs)
    (hh : (serase sockId rs).head? = some h)
    (hv : alookup h st.connectedUsers = some v) :
    alookup h (transportDisconnect now reason st sockId).1.connectedUsers =
      some { v with isHost := true } ∧
    alookup u.roomId (transportDisconnect now reason st sockId).1.roomHosts = some h ∧
    ⟨EmitTarget.toIoRoom u.roomId,
      Event.hostChanged h v.name sockId
        ((serase sockId rs).map (fun i => (i, i == h)))⟩ ∈
      (transportDisconnect now reason st sockId).2 := by
  have hne : serase sockId rs ≠ [] := by
    intro hc
    rw [hc] at hh
    cases hh
  have hmem : h ∈ serase sockId rs := by
    cases hsr : serase sockId rs with
    | nil => exact absurd hsr hne
    | cons a t =>
      rw [hsr] at hh
      injection hh with hh2
      subst hh2
      exact List.mem_cons_self _ _
  have hns : h ≠ sockId := ((mem_serase _ _ _).mp hmem).2
  have hef : (serase sockId rs).isEmpty = false := by
    cases hsr : serase sockId rs with
    | nil => exact absurd hsr hne
    | cons a t => rfl
  simp only [transportDisconnect, disconnectHandler, hm, hr, hh, hv]
  rw [if_pos (⟨hhost, hne⟩ : u.isHost = true ∧ serase sockId rs ≠ [])]
  simp only [hef, Bool.false_eq_true, if_false]
  refine ⟨?_, ?_, ?_⟩
  · rw [alookup_aerase, if_neg hns, alookup_ainsert, if_pos rfl]
  · rw [alookup_ainsert, if_pos rfl]
  · exact List.mem_append.mpr (Or.inl (List.mem_cons_self _ _))

/-- C6 witness: in wSt the host p1 disconnects; the first remaining member
    p2 is promoted, the host map of RX names p2, and host-changed with
    the participants vector is broadcast. -/
theorem host_disconnect_promotes_witness :
    alookup "p2" (transportDisconnect "t2" "transport close" wSt "p1").1.connectedUsers =
      some { (mkUser "p2" "Bob" "RX" false) with isHost := true } ∧
    alookup "RX" (transportDisconnect "t2" "transport close" wSt "p1").1.roomHosts =
      some "p2" ∧
    ⟨EmitTarget.toIoRoom "RX",
      Event.hostChanged "p2" "Bob" "p1"
        ((serase "p1" ["p1", "p2"]).map (fun i => (i, i == "p2")))⟩ ∈
      (transportDisconnect "t2" "transport close" wSt "p1").2 := by
  have hbase := host_disconnect_promotes wSt "t2" "transport close" "p1"
    (mkUser "p1" "Alice" "RX" true) ["p1", "p2"] (mkUser "p2" "Bob" "RX" false) "p2"
    (by decide) (by decide) (by decide) (by decide) (by decide)
  exact hbase

theorem disconnectHandler_events (now reason : String) (st : ServerState) (sid : String) :
    ∀ a ∈ (disconnectHandler now reason st sid).2, ∀ m, a.event ≠ Event.joinError m := by
  intro a ha m hc
  unfold disconnectHandler at ha
  split at ha
  · simp at ha
  · dsimp only [] at ha
    split at ha
    · simp only [List.mem_cons, List.not_mem_nil, or_false] at ha
      rcases ha with ha | ha <;> (subst ha; cases hc)
    · rcases List.mem_append.mp ha with h1 | h2
      · split at h1
        · split at h1
          · split at h1
            · simp only [List.mem_cons, List.not_mem_nil, or_false] at h1
              subst h1
              cases hc
            · simp at h1
          · simp at h1
        · simp at h1
      · simp only [List.mem_cons, List.not_mem_nil, or_false] at h2
        rcases h2 with h2 | h2 <;> (subst h2; cases hc)

theorem transportDisconnect_events (now reason : String) (st : ServerState) (sid : String) :
    ∀ a ∈ (transportDisconnect now reason st sid).2, ∀ m, a.event ≠ Event.joinError m := by
  unfold transportDisconnect
  exact disconnectHandler_events now reason _ sid

theorem preemptOld_events (now userName newSockId : String)
    (acc : ServerState × List EmitAction) (x : String)
    (hacc : ∀ a ∈ acc.2, ∀ m, a.event ≠ Event.joinError m) :
    ∀ a ∈ (preemptOld now userName newSockId acc x).2, ∀ m, a.event ≠ Event.joinError m := by
  intro a ha m hc
  unfold preemptOld at ha
  split at ha
  · exact hacc a ha m hc
  · simp only [List.append_assoc, List.mem_append] at ha
    rcases ha with ha | ha | ha
    · exact hacc a ha m hc
    · split at ha
      · simp only [List.mem_cons, List.not_mem_nil, or_false] at ha
        subst ha
        cases hc
      · simp at ha
    · split at ha
      · exact transportDisconnect_events now reasonDuplicate _ x a ha m hc
      · simp at ha

theorem preemptFold_events (now userName newSockId : String) (l : List String)
    (acc : ServerState × List EmitAction)
    (hacc : ∀ a ∈ acc.2, ∀ m, a.event ≠ Event.joinError m) :
    ∀ a ∈ (l.foldl (preemptOld now userName newSockId) acc).2,
      ∀ m, a.event ≠ Event.joinError m := by
  induction l generalizing acc with
  | nil => exact hacc
  | cons x xs ih =>
    exact ih _ (preemptOld_events now userName newSockId acc x hacc)

theorem staleFold_events (now sockId roomId : String) (l : List String)
    (acc : ServerState × List EmitAction)
    (hacc : ∀ a ∈ acc.2, ∀ m, a.event ≠ Event.joinError m) :
    ∀ a ∈ (l.foldl (staleRemove now sockId roomId) acc).2,
      ∀ m, a.event ≠ Event.joinError m := by
  induction l generalizing acc with
  | nil => exact hacc
  | cons x xs ih =>
    refine ih _ ?_
    intro a ha m hc
    unfold staleRemove at ha
    rcases List.mem_append.mp ha with h1 | h2
    · exact hacc a h1 m hc
    · simp only [List.mem_cons, List.not_mem_nil, or_false] at h2
      subst h2
      cases hc

theorem ensureRoom_members (st : ServerState) (roomId : String) (uid : Option String) :
    roomMembers (ensureRoom st roomId uid) roomId = roomMembers st roomId := by
  unfold ensureRoom
  cases hl : alookup roomId st.rooms with
  | some mem => rfl
  | none => simp [roomMembers, alookup_ainsert, hl]

theorem ensureRoom_of_some (st : ServerState) (roomId : String) (uid : Option String)
    (mem : List String) (h : alookup roomId st.rooms = some mem) :
    ensureRoom st roomId uid = st := by
  unfold ensureRoom
  rw [h]

/-- C2 amended, part of the statement: with valid inputs and the server
    below total capacity, join-room rejects with join-error Room is full
    exactly when the target room size BEFORE the duplicate-session
    preemption and the stale-socket cleanup is at least 50 (the source
    checks capacity before either cleanup runs); on that rejection the
    state is returned unchanged and the only emission is the join-error
    to the joiner, so no membership changes and nothing is broadcast. -/
theorem room_full_precleanup
    (st : ServerState) (now sockId roomId userName : String) (uid : Option String)
    (hv1 : ¬(roomId = "" ∨ userName = ""))
    (hv2 : ¬(userName.toList.contains '-' ∧ 10 < userName.length))
    (hv3 : st.connectedUsers.length < 1000) :
    (50 ≤ (roomMembers st roomId).length →
      joinRoom now st sockId roomId userName uid =
        (st, [⟨EmitTarget.toSelf sockId, Event.joinError "Room is full"⟩])) ∧
    ((roomMembers st roomId).length < 50 →
      ∀ a ∈ (joinRoom now st sockId roomId userName uid).2,
        a.event ≠ Event.joinError "Room is full") := by
  constructor
  · intro h50
    unfold joinRoom
    rw [if_neg hv1, if_neg hv2, if_neg (by omega)]
    have hlook : ∃ mem, alookup roomId st.rooms = some mem := by
      cases hl : alookup roomId st.rooms with
      | none =>
        exfalso
        have : roomMembers st roomId = [] := by simp [roomMembers, hl]
        rw [this] at h50
        simp at h50
      | some mem => exact ⟨mem, rfl⟩
    rcases hlook with ⟨mem, hmem⟩
    have hid : ensureRoom st roomId uid = st := ensureRoom_of_some st roomId uid mem hmem
    dsimp only []
    rw [hid, if_pos h50]
  · intro h50 a ha
    unfold joinRoom at ha
    rw [if_neg hv1, if_neg hv2,
      if_neg (show ¬ 1000 ≤ st.connectedUsers.length by omega)] at ha
    dsimp only [] at ha
    rw [if_neg (show ¬ 50 ≤ (roomMembers (ensureRoom st roomId uid) roomId).length by
      rw [ensureRoom_members]; omega)] at ha
    rcases List.mem_append.mp ha with hb | hb
    · unfold joinCleanup at hb
      dsimp only [] at hb
      rcases List.mem_append.mp hb with hd | hd
      · split at hd
        · split at hd
          · simp at hd
          · dsimp only [] at hd
            exact preemptFold_events now userName sockId _ _
              (by intro b hbx; simp at hbx) a hd "Room is full"
        · simp at hd
      · exact staleFold_events now sockId roomId _ _
          (by intro b hbx; simp at hbx) a hd "Room is full"
    · unfold joinFinalize at hb
      dsimp only [] at hb
      simp only [List.append_assoc, List.mem_append] at hb
      rcases hb with hd | hd | hd | hd
      · simp only [List.mem_cons, List.not_mem_nil, or_false] at hd
        subst hd
        exact fun hc => Event.noConfusion hc
      · split at hd
        · simp only [List.mem_cons, List.not_mem_nil, or_false] at hd
          subst hd
          exact fun hc => Event.noConfusion hc
        · simp at hd
      · simp only [List.mem_cons, List.not_mem_nil, or_false] at hd
        subst hd
        exact fun hc => Event.noConfusion hc
      · simp only [List.mem_cons, List.not_mem_nil, or_false] at hd
        subst hd
        exact fun hc => Event.noConfusion hc

/-- Follows the spec wording only, for comparison with the code (§4.5
    steps 3-4): the size the target room would have after removing every
    member that is not live on the transport or whose display name equals
    the joining name. The code does not compute this; it checks capacity
    before any cleanup. -/
def specPostCleanupSize (st : ServerState) (roomId userName : String) : Nat :=
  ((roomMembers st roomId).filter (fun m =>
    shas m st.liveSockets &&
    (match alookup m st.connectedUsers with
     | some u => u.name != userName
     | none => false))).length

/-- Ids m0..m48 of the 49 live members filling room RF. -/
def fullIds : List String := (List.range 49).map (fun i => "m" ++ toString i)

/-- Concrete state: room RF holds 49 live members plus one zombie (z49,
    named Alice, transport-dead), so its set counts 50 while only 49
    distinct live non-Alice members remain; a50 is a fresh live socket
    about to join as Alice. -/
def stFull : ServerState :=
  { connectedUsers := (fullIds.map (fun s => (s, mkUser s ("N" ++ s) "RF" (s == "m0")))) ++
      [("z49", mkUser "z49" "Alice" "RF" false)],
    userSessions := (fullIds.map (fun s => ("N" ++ s, [s]))) ++ [("Alice", ["z49"])],
    rooms := [("RF", fullIds ++ ["z49"])],
    roomHosts := [("RF", "m0")],
    roomCreators := [],
    connectionHealth := [],
    liveSockets := fullIds ++ ["a50"],
    ioRooms := [("RF", fullIds ++ ["z49"])] }

/-- C2 counterexample: in stFull the room size measured after the
    preemption and stale/zombie cleanup the spec describes would be 49,
    below the 50 limit, so the claim says the join is not rejected; the
    code nevertheless rejects with join-error Room is full because it
    checks the raw pre-cleanup size of 50. -/
theorem room_full_precleanup_counterexample :
    (roomMembers stFull "RF").length = 50 ∧
    specPostCleanupSize stFull "RF" "Alice" = 49 ∧
    joinRoom "t1" stFull "a50" "RF" "Alice" none =
      (stFull, [⟨EmitTarget.toSelf "a50", Event.joinError "Room is full"⟩]) := by
  refine ⟨by decide, by decide, by decide⟩

/-- C2 witness: instantiation of the amended theorem at stFull, both the
    rejection side (pre-cleanup size 50) and the non-rejection side on
    the small state wSt (pre-cleanup size 2). -/
theorem room_full_precleanup_witness :
    joinRoom "t1" stFull "a50" "RF" "Alice" none =
      (stFull, [⟨EmitTarget.toSelf "a50", Event.joinError "Room is full"⟩]) :=
  (room_full_precleanup stFull "t1" "a50" "RF" "Alice" none
    (by decide) (by decide) (by decide)).1 (by decide)

theorem alookup_filter_some {α : Type} (k : String) (v : α) (p : String × α → Bool)
    (l : List (String × α)) (h : alookup k (l.filter p) = some v) : p (k, v) = true := by
  induction l with
  | nil => simp [alookup] at h
  | cons q rest ih =>
    by_cases hp : p q = true
    · rw [List.filter_cons_of_pos hp] at h
      by_cases hk : q.1 = k
      · rcases q with ⟨qk, qv⟩
        simp only [alookup, if_pos hk] at h
        injection h with h
        subst h
        cases hk
        exact hp
      · simp only [alookup, if_neg hk] at h
        exact ih h
    · rw [List.filter_cons_of_neg (by simpa using hp)] at h
      exact ih h

/-- Concrete state for the empty-room leak: a1 is the sole member and host
    of room R2 (created by uAlice) under the name Alice; a2 is a fresh
    live socket joining room R1 under the same name. -/
def wSt7 : ServerState :=
  { connectedUsers := [("a1", mkUser "a1" "Alice" "R2" true)],
    userSessions := [("Alice", ["a1"])],
    rooms := [("R2", ["a1"])],
    roomHosts := [("R2", "a1")],
    roomCreators := [("R2", "uAlice")],
    connectionHealth := [("a1", mkHealth 5)],
    liveSockets := ["a1", "a2"],
    ioRooms := [("a1", ["a1"]), ("a2", ["a2"]), ("R2", ["a1"])] }

/-- C7 counterexample: after the join-room handler for a2 completes, the
    duplicate-session preemption has emptied room R2 but left its room
    record in place with an empty member set, with the host and creator
    entries for R2 still present: a room record exists whose member set
    is empty, refuting the claimed if-and-only-if and the claimed
    clearing of host and creator maps. -/
theorem room_iff_nonempty_counterexample :
    alookup "R2" (joinRoom "t1" wSt7 "a2" "R1" "Alice" none).1.rooms = some [] ∧
    alookup "R2" (joinRoom "t1" wSt7 "a2" "R1" "Alice" none).1.roomHosts = some "a1" ∧
    alookup "R2" (joinRoom "t1" wSt7 "a2" "R1" "Alice" none).1.roomCreators =
      some "uAlice" := by
  refine ⟨by decide, by decide, by decide⟩

/-- C7 amended: the disconnect handler does enforce the correspondence for
    the disconnecting user's room, deleting the room record and clearing
    the host-map and creator-map entries when the set empties, and the
    periodic cleanup deletes every room record whose set is empty (though
    without clearing host or creator entries); but join-room's
    duplicate-session preemption can leave the preempted session's room
    record present with an empty member set, and dangling host and
    creator entries, until the next cleanup tick or disconnect. -/
theorem room_lifecycle_partial
    (st : ServerState) (now reason sid : String) (u : User) (rs : List String)
    (hm : alookup sid st.connectedUsers = some u)
    (hr : alookup u.roomId st.rooms = some rs)
    (hempty : serase sid rs = []) :
    (alookup u.roomId (transportDisconnect now reason st sid).1.rooms = none ∧
     alookup u.roomId (transportDisconnect now reason st sid).1.roomHosts = none ∧
     alookup u.roomId (transportDisconnect now reason st sid).1.roomCreators = none) ∧
    (∀ (st2 : ServerState) (n2 : Nat) (r : String) (l : List String),
      alookup r (performCleanup n2 st2).rooms = some l → l ≠ []) := by
  constructor
  · have hef : (serase sid rs).isEmpty = true := by rw [hempty]; rfl
    have hnp : ¬ (u.isHost = true ∧ serase sid rs ≠ []) := by
      rintro ⟨_, hne⟩
      exact hne hempty
    simp only [transportDisconnect, disconnectHandler, hm, hr]
    rw [if_neg hnp]
    simp only [hef, if_pos]
    refine ⟨?_, ?_, ?_⟩ <;> rw [alookup_aerase, if_pos rfl]
  · intro st2 n2 r l hl hc
    subst hc
    have := alookup_filter_some r [] _ _ hl
    simp at this

/-- C7 witness: instantiation at wSt7 where a1, sole member and host of
    R2, disconnects: the room record and its host and creator entries all
    disappear; and the sweep instance on wStale keeps only non-empty
    rooms. -/
theorem room_lifecycle_partial_witness :
    (alookup "R2" (transportDisconnect "t3" "client" wSt7 "a1").1.rooms = none ∧
     alookup "R2" (transportDisconnect "t3" "client" wSt7 "a1").1.roomHosts = none ∧
     alookup "R2" (transportDisconnect "t3" "client" wSt7 "a1").1.roomCreators = none) ∧
    (alookup "R" (performCleanup 1000000 wStale).rooms = some ["c1"] →
      (["c1"] : List String) ≠ []) := by
  have hbase := room_lifecycle_partial wSt7 "t3" "client" "a1"
    (mkUser "a1" "Alice" "R2" true) ["a1"] (by decide) (by decide) (by decide)
  exact ⟨hbase.1, hbase.2 wStale 1000000 "R" ["c1"]⟩

/-- Host flag of the record behind a connection id (false when there is
    no record). -/
def userHostFlag (st : ServerState) (m : String) : Bool :=
  match alookup m st.connectedUsers with
  | some u => u.isHost
  | none => false

/-- A member of room r is coherent when its record exists and names r. -/
def memberCoherent (st : ServerState) (r m : String) : Bool :=
  match alookup m st.connectedUsers with
  | some u => u.roomId == r
  | none => false

/-- Spec invariant 3 and part of invariant 1: every id in a room set
    resolves to a live record whose roomId is that room. -/
def roomsCoherent (st : ServerState) : Prop :=
  ∀ p ∈ st.rooms, ∀ m ∈ roomMembers st p.1, memberCoherent st p.1 m = true

/-- Spec invariant 1: every participant record appears in the member set
    of its room. -/
def recordInRoom (st : ServerState) : Prop :=
  ∀ p ∈ st.connectedUsers, p.1 ∈ roomMembers st p.2.roomId

/-- Room member sets are JS Sets: no duplicates. -/
def membersNodup (st : ServerState) : Prop :=
  ∀ p ∈ st.rooms, (roomMembers st p.1).Nodup

/-- Ids of host-flagged members of a room. -/
def hostsOfRoom (st : ServerState) (r : String) : List String :=
  (roomMembers st r).filter (fun m => userHostFlag st m)

/-- Spec invariant 2 for one room: at most one host, exactly one when the
    room is non-empty. -/
def hostUniqueRoom (st : ServerState) (r : String) : Prop :=
  (hostsOfRoom st r).length ≤ 1 ∧
  (roomMembers st r ≠ [] → (hostsOfRoom st r).length = 1)

/-- Spec invariant 2 over all rooms. -/
def hostUniqueAll (st : ServerState) : Prop :=
  ∀ p ∈ st.rooms, hostUniqueRoom st p.1

/-- The host-map entry of a non-empty room is a non-empty id naming a
    host-flagged member of the room. -/
def hostPointerOk (st : ServerState) (r : String) (mem : List String) : Bool :=
  match alookup r st.roomHosts with
  | some h => (!(h == "")) && shas h mem && userHostFlag st h
  | none => false

/-- Spec invariant 6: the host map agrees with the member host flags. -/
def hostMapCoherent (st : ServerState) : Prop :=
  ∀ p ∈ st.rooms, roomMembers st p.1 ≠ [] →
    hostPointerOk st p.1 (roomMembers st p.1) = true

theorem roomsCoherent_lookup {st : ServerState} (h : roomsCoherent st)
    (r m : String) (hm : m ∈ roomMembers st r) : memberCoherent st r m = true := by
  cases hl : alookup r st.rooms with
  | none =>
    unfold roomMembers at hm
    rw [hl] at hm
    simp at hm
  | some l => exact h (r, l) (alookup_mem r l _ hl) m hm

theorem hostMapCoherent_lookup {st : ServerState} (h : hostMapCoherent st)
    (r : String) (hne : roomMembers st r ≠ []) :
    hostPointerOk st r (roomMembers st r) = true := by
  cases hl : alookup r st.rooms with
  | none =>
    exact absurd (by simp [roomMembers, hl]) hne
  | some l => exact h (r, l) (alookup_mem r l _ hl) hne

theorem hostUniqueAll_lookup {st : ServerState} (h : hostUniqueAll st)
    (r : String) : hostUniqueRoom st r := by
  cases hl : alookup r st.rooms with
  | none =>
    constructor
    · simp [hostsOfRoom, roomMembers, hl]
    · intro hc; exact absurd (by simp [roomMembers, hl]) hc
  | some l => exact h (r, l) (alookup_mem r l _ hl)

theorem membersNodup_lookup {st : ServerState} (h : membersNodup st)
    (r : String) : (roomMembers st r).Nodup := by
  cases hl : alookup r st.rooms with
  | none => simp [roomMembers, hl]
  | some l => exact h (r, l) (alookup_mem r l _ hl)

theorem filter_eq_singleton {l : List String} {p : String → Bool} {a : String}
    (hl : l.Nodup) (ha : a ∈ l) (hp : ∀ m ∈ l, (p m = true ↔ m = a)) :
    l.filter p = [a] := by
  induction l with
  | nil => simp at ha
  | cons x xs ih =>
    rcases List.nodup_cons.mp hl with ⟨hx, hxs⟩
    by_cases hxa : x = a
    · subst hxa
      rw [List.filter_cons_of_pos ((hp x (List.mem_cons_self x xs)).mpr rfl)]
      have : xs.filter p = [] := by
        rw [List.filter_eq_nil_iff]
        intro b hb hc
        have := (hp b (List.mem_cons_of_mem x hb)).mp hc
        subst this
        exact hx hb
      rw [this]
    · have hax : a ∈ xs := by
        rcases List.mem_cons.mp ha with h1 | h1
        · exact absurd h1.symm hxa
        · exact h1
      have hpx : p x = false := by
        cases hpv : p x
        · rfl
        · exact absurd ((hp x (List.mem_cons_self x xs)).mp hpv) hxa
      rw [List.filter_cons_of_neg (by simp [hpx])]
      exact ih hxs hax (fun m hm => hp m (List.mem_cons_of_mem x hm))

theorem two_mem_not_length_le_one {l : List String} {a b : String}
    (ha : a ∈ l) (hb : b ∈ l) (hab : a ≠ b) : ¬ l.length ≤ 1 := by
  intro hlen
  cases l with
  | nil => simp at ha
  | cons x xs =>
    cases xs with
    | nil =>
      rw [List.mem_singleton] at ha hb
      exact hab (ha.trans hb.symm)
    | cons y ys => simp at hlen

theorem length_one_singleton {l : List String} (h : l.length = 1) :
    ∃ a, l = [a] := by
  cases l with
  | nil => simp at h
  | cons x xs =>
    cases xs with
    | nil => exact ⟨x, rfl⟩
    | cons y ys => simp at h

/-- C1 counterexample: the pre-state wStale satisfies the invariant (room
    R is non-empty with exactly the host c1), c1 is five minutes stale,
    and one sweep tick later room R is still non-empty but contains no
    participant with host = true: the stale sweep does not preserve the
    invariant. -/
theorem host_unique_sweep_counterexample :
    hostsOfRoom wStale "R" = ["c1"] ∧
    roomMembers wStale "R" ≠ [] ∧
    staleThreshold < 1000000 - (mkHealth 0).lastPing ∧
    roomMembers (performCleanup 1000000 wStale) "R" = ["c1"] ∧
    hostsOfRoom (performCleanup 1000000 wStale) "R" = [] := by
  refine ⟨by decide, by decide, by decide, by decide, by decide⟩

/-- State after a successful host transfer from s (record c) to n
    (record nu). -/
def transferState (st : ServerState) (s n : String) (c nu : User) : ServerState :=
  { st with
    connectedUsers := ainsert n { nu with isHost := true }
      (ainsert s { c with isHost := false } st.connectedUsers),
    roomHosts := ainsert c.roomId n st.roomHosts }

theorem userHostFlag_transfer (st : ServerState) (s n : String) (c nu : User) (m : String) :
    userHostFlag (transferState st s n c nu) m =
      (if m = n then true else if m = s then false else userHostFlag st m) := by
  unfold userHostFlag transferState
  dsimp only []
  rw [alookup_ainsert]
  by_cases hmn : m = n
  · simp [hmn]
  · rw [if_neg hmn, if_neg hmn, alookup_ainsert]
    by_cases hms : m = s
    · simp [hms]
    · rw [if_neg hms, if_neg hms]

theorem transfer_core (st : ServerState) (s n : String) (c nu : User)
    (hco : roomsCoherent st) (hrec : recordInRoom st) (hnd : membersNodup st)
    (hun : hostUniqueAll st)
    (hs : alookup s st.connectedUsers = some c)
    (hn : alookup n st.connectedUsers = some nu)
    (hg : c.isHost = true ∧ c.roomId = nu.roomId) :
    hostUniqueAll (transferState st s n c nu) := by
  intro p hp
  have hmemEq : ∀ r, roomMembers (transferState st s n c nu) r = roomMembers st r :=
    fun r => rfl
  have hsn : s ∈ roomMembers st c.roomId := hrec (s, c) (alookup_mem s c _ hs)
  have hnn : n ∈ roomMembers st c.roomId := by
    have := hrec (n, nu) (alookup_mem n nu _ hn)
    rw [← hg.2] at this
    exact this
  have hflagS : userHostFlag st s = true := by
    unfold userHostFlag
    rw [hs]
    exact hg.1
  by_cases hr : p.1 = c.roomId
  · rw [hr]
    have hsingle : hostsOfRoom (transferState st s n c nu) c.roomId = [n] := by
      unfold hostsOfRoom
      rw [hmemEq]
      refine filter_eq_singleton (membersNodup_lookup hnd c.roomId) hnn ?_
      intro m hm
      rw [userHostFlag_transfer]
      by_cases hmn : m = n
      · simp [hmn]
      · rw [if_neg hmn]
        simp only [hmn, iff_false]
        by_cases hms : m = s
        · simp [hms]
        · rw [if_neg hms]
          intro hflagM
          have hmh : m ∈ hostsOfRoom st c.roomId :=
            List.mem_filter.mpr ⟨hm, hflagM⟩
          have hsh : s ∈ hostsOfRoom st c.roomId :=
            List.mem_filter.mpr ⟨hsn, hflagS⟩
          exact two_mem_not_length_le_one hmh hsh hms
            (hostUniqueAll_lookup hun c.roomId).1
    exact ⟨by rw [hsingle]; exact Nat.le_refl 1, fun _ => by rw [hsingle]; rfl⟩
  · have hsame : hostsOfRoom (transferState st s n c nu) p.1 = hostsOfRoom st p.1 := by
      unfold hostsOfRoom
      rw [hmemEq]
      refine List.filter_congr ?_
      intro m hm
      rw [userHostFlag_transfer]
      have hmn : ¬ m = n := by
        intro hc2
        subst hc2
        have := roomsCoherent_lookup hco p.1 m hm
        unfold memberCoherent at this
        rw [hn, beq_iff_eq] at this
        rw [← this, ← hg.2] at hr
        exact hr rfl
      have hms : ¬ m = s := by
        intro hc2
        subst hc2
        have := roomsCoherent_lookup hco p.1 m hm
        unfold memberCoherent at this
        rw [hs, beq_iff_eq] at this
        rw [← this] at hr
        exact hr rfl
      rw [if_neg hmn, if_neg hms]
    constructor
    · rw [hsame]
      exact (hostUniqueAll_lookup hun p.1).1
    · intro hne
      rw [hsame]
      exact (hostUniqueAll_lookup hun p.1).2 (by rw [hmemEq] at hne; exact hne)

theorem hostTransfer_preserves
    (st : ServerState)
    (hco : roomsCoherent st) (hrec : recordInRoom st) (hnd : membersNodup st)
    (hun : hostUniqueAll st) (s n : String) :
    hostUniqueAll (hostTransferH st s n).1 := by
  unfold hostTransferH
  cases hs : alookup s st.connectedUsers with
  | none => exact hun
  | some c =>
    cases hn : alookup n st.connectedUsers with
    | none => exact hun
    | some nu =>
      dsimp only []
      by_cases hg : c.isHost = true ∧ c.roomId = nu.roomId
      · rw [if_pos hg]
        exact transfer_core st s n c nu hco hrec hnd hun hs hn hg
      · rw [if_neg hg]
        exact hun

theorem hostUniqueAll_ext (st1 st2 : ServerState)
    (hrooms : st2.rooms = st1.rooms) (husers : st2.connectedUsers = st1.connectedUsers)
    (h : hostUniqueAll st1) : hostUniqueAll st2 := by
  intro p hp
  rw [hrooms] at hp
  have h2 := h p hp
  have e1 : ∀ r, roomMembers st2 r = roomMembers st1 r := by
    intro r; unfold roomMembers; rw [hrooms]
  have e2 : ∀ m, userHostFlag st2 m = userHostFlag st1 m := by
    intro m; unfold userHostFlag; rw [husers]
  have e3 : ∀ r, hostsOfRoom st2 r = hostsOfRoom st1 r := by
    intro r
    unfold hostsOfRoom
    rw [e1]
    exact List.filter_congr (fun m _ => e2 m)
  exact ⟨by rw [e3]; exact h2.1,
         fun hne => by rw [e3]; exact h2.2 (by rw [← e1]; exact hne)⟩

theorem hostUniqueRoom_of_singleton {st : ServerState} {r a : String}
    (h : hostsOfRoom st r = [a]) : hostUniqueRoom st r :=
  ⟨by rw [h]; exact Nat.le_refl 1, fun _ => by rw [h]; rfl⟩

theorem hostUniqueRoom_of_empty {st : ServerState} {r : String}
    (h : roomMembers st r = []) : hostUniqueRoom st r := by
  constructor
  · unfold hostsOfRoom
    rw [h]
    exact Nat.le_refl 0 |>.trans (Nat.zero_le 1)
  · intro hne
    exact absurd h hne

theorem hostUniqueRoom_of_eq {st1 st2 : ServerState} {r : String}
    (hmem : roomMembers st2 r = roomMembers st1 r)
    (hflag : ∀ m ∈ roomMembers st1 r, userHostFlag st2 m = userHostFlag st1 m)
    (h : hostUniqueRoom st1 r) : hostUniqueRoom st2 r := by
  have e3 : hostsOfRoom st2 r = hostsOfRoom st1 r := by
    unfold hostsOfRoom
    rw [hmem]
    exact List.filter_congr hflag
  exact ⟨by rw [e3]; exact h.1, fun hne => by rw [e3]; exact h.2 (by rw [← hmem]; exact hne)⟩

theorem coherent_record {st : ServerState} (hco : roomsCoherent st) {r m : String}
    (hm : m ∈ roomMembers st r) :
    ∃ w, alookup m st.connectedUsers = some w ∧ w.roomId = r := by
  have hcm := roomsCoherent_lookup hco r m hm
  unfold memberCoherent at hcm
  cases hw : alookup m st.connectedUsers with
  | none => rw [hw] at hcm; simp at hcm
  | some w =>
    rw [hw] at hcm
    rw [beq_iff_eq] at hcm
    exact ⟨w, rfl, hcm⟩

theorem sid_not_in_other {st : ServerState} (hco : roomsCoherent st) {sid r : String}
    {u : User} (hm : alookup sid st.connectedUsers = some u) (hr : r ≠ u.roomId)
    (hmem : sid ∈ roomMembers st r) : False := by
  rcases coherent_record hco hmem with ⟨w, hw, hwr⟩
  rw [hm] at hw
  injection hw with hw
  subst hw
  exact hr hwr.symm

theorem disconnect_promo_unique
    (st : ServerState) (sid : String) (u v : User) (h : String) (rs : List String)
    (hco : roomsCoherent st) (hrec : recordInRoom st) (hnd : membersNodup st)
    (hun : hostUniqueAll st)
    (hm : alookup sid st.connectedUsers = some u)
    (hrm : alookup u.roomId st.rooms = some rs)
    (hhost : u.isHost = true)
    (hh : (serase sid rs).head? = some h)
    (hv : alookup h st.connectedUsers = some v)
    (st2 : ServerState)
    (h2r : st2.rooms = ainsert u.roomId (serase sid rs) st.rooms)
    (h2u : st2.connectedUsers =
      aerase sid (ainsert h { v with isHost := true } st.connectedUsers)) :
    hostUniqueAll st2 := by
  have hne : serase sid rs ≠ [] := by
    intro hc; rw [hc] at hh; cases hh
  have hmemH : h ∈ serase sid rs := by
    cases hsr : serase sid rs with
    | nil => exact absurd hsr hne
    | cons a t =>
      rw [hsr] at hh
      injection hh with hh2
      subst hh2
      exact List.mem_cons_self _ _
  have hhs : h ≠ sid := ((mem_serase _ _ _).mp hmemH).2
  have hrsm : roomMembers st u.roomId = rs := by simp [roomMembers, hrm]
  have hmembers : ∀ r, roomMembers st2 r =
      if r = u.roomId then serase sid rs else roomMembers st r := by
    intro r
    by_cases hr : r = u.roomId
    · unfold roomMembers
      rw [h2r, alookup_ainsert, if_pos hr, if_pos hr]
    · unfold roomMembers
      rw [h2r, alookup_ainsert, if_neg hr, if_neg hr]
  have hflags : ∀ m, userHostFlag st2 m =
      if m = sid then false else if m = h then true else userHostFlag st m := by
    intro m
    unfold userHostFlag
    rw [h2u, alookup_aerase]
    by_cases hms : m = sid
    · simp [hms]
    · rw [if_neg hms, if_neg hms, alookup_ainsert]
      by_cases hmh : m = h
      · simp [hmh]
      · rw [if_neg hmh, if_neg hmh]
  have hsidmem : sid ∈ roomMembers st u.roomId := hrec (sid, u) (alookup_mem sid u _ hm)
  have hsidflag : userHostFlag st sid = true := by
    unfold userHostFlag; rw [hm]; exact hhost
  intro p hp
  by_cases hr : p.1 = u.roomId
  · rw [hr]
    refine hostUniqueRoom_of_singleton (a := h) ?_
    unfold hostsOfRoom
    rw [hmembers u.roomId, if_pos rfl]
    refine filter_eq_singleton ?_ hmemH ?_
    · exact nodup_serase sid rs (by rw [← hrsm]; exact membersNodup_lookup hnd u.roomId)
    · intro m hm2
      rw [hflags]
      have hms : m ≠ sid := ((mem_serase _ _ _).mp hm2).2
      rw [if_neg hms]
      by_cases hmh : m = h
      · simp [hmh]
      · rw [if_neg hmh]
        simp only [hmh, iff_false]
        intro hflagM
        have hmrs : m ∈ roomMembers st u.roomId := by
          rw [hrsm]; exact ((mem_serase _ _ _).mp hm2).1
        have hmh2 : m ∈ hostsOfRoom st u.roomId := List.mem_filter.mpr ⟨hmrs, hflagM⟩
        have hsh : sid ∈ hostsOfRoom st u.roomId := List.mem_filter.mpr ⟨hsidmem, hsidflag⟩
        exact two_mem_not_length_le_one hmh2 hsh hms (hostUniqueAll_lookup hun u.roomId).1
  · refine @hostUniqueRoom_of_eq st _ _ ?_ ?_ (hostUniqueAll_lookup hun p.1)
    · rw [hmembers p.1, if_neg hr]
    · intro m hm2
      rw [hflags]
      have hms : m ≠ sid := fun hc => sid_not_in_other hco hm hr (hc ▸ hm2)
      have hvr : v.roomId = u.roomId := by
        rcases coherent_record hco (show h ∈ roomMembers st u.roomId by
          rw [hrsm]; exact ((mem_serase _ _ _).mp hmemH).1) with ⟨w, hw, hwr⟩
        rw [hv] at hw
        injection hw with hw
        subst hw
        exact hwr
      have hmh : m ≠ h := by
        intro hc
        subst hc
        rcases coherent_record hco hm2 with ⟨w, hw, hwr⟩
        rw [hv] at hw
        injection hw with hw
        subst hw
        rw [← hwr, hvr] at hr
        exact hr rfl
      rw [if_neg hms, if_neg hmh]

theorem disconnect_nonhost_unique
    (st : ServerState) (sid : String) (u : User) (rs : List String)
    (hco : roomsCoherent st) (hnd : membersNodup st)
    (hun : hostUniqueAll st)
    (hm : alookup sid st.connectedUsers = some u)
    (hrm : alookup u.roomId st.rooms = some rs)
    (hhost : u.isHost = false)
    (hne : serase sid rs ≠ [])
    (st2 : ServerState)
    (h2r : st2.rooms = ainsert u.roomId (serase sid rs) st.rooms)
    (h2u : st2.connectedUsers = aerase sid st.connectedUsers) :
    hostUniqueAll st2 := by
  have hrsm : roomMembers st u.roomId = rs := by simp [roomMembers, hrm]
  have hrsne : rs ≠ [] := by
    intro hc
    rw [hc] at hne
    exact hne rfl
  have hmembers : ∀ r, roomMembers st2 r =
      if r = u.roomId then serase sid rs else roomMembers st r := by
    intro r
    by_cases hr : r = u.roomId
    · unfold roomMembers
      rw [h2r, alookup_ainsert, if_pos hr, if_pos hr]
    · unfold roomMembers
      rw [h2r, alookup_ainsert, if_neg hr, if_neg hr]
  have hflags : ∀ m, userHostFlag st2 m =
      if m = sid then false else userHostFlag st m := by
    intro m
    unfold userHostFlag
    rw [h2u, alookup_aerase]
    by_cases hms : m = sid
    · simp [hms]
    · rw [if_neg hms, if_neg hms]
  have hsidflag : userHostFlag st sid = false := by
    unfold userHostFlag; rw [hm]; exact hhost
  intro p hp
  by_cases hr : p.1 = u.roomId
  · rw [hr]
    have hone := (hostUniqueAll_lookup hun u.roomId).2 (by rw [hrsm]; exact hrsne)
    rcases length_one_singleton hone with ⟨hstar, hsing⟩
    have hstarmem : hstar ∈ roomMembers st u.roomId ∧ userHostFlag st hstar = true := by
      have : hstar ∈ hostsOfRoom st u.roomId := by rw [hsing]; exact List.mem_singleton.mpr rfl
      exact List.mem_filter.mp this
    have hstarsid : hstar ≠ sid := by
      intro hc
      rw [hc, hsidflag] at hstarmem
      exact Bool.false_ne_true hstarmem.2
    refine hostUniqueRoom_of_singleton (a := hstar) ?_
    unfold hostsOfRoom
    rw [hmembers u.roomId, if_pos rfl]
    refine filter_eq_singleton ?_ ?_ ?_
    · exact nodup_serase sid rs (by rw [← hrsm]; exact membersNodup_lookup hnd u.roomId)
    · exact (mem_serase _ _ _).mpr ⟨by rw [← hrsm]; exact hstarmem.1, hstarsid⟩
    · intro m hm2
      rw [hflags]
      have hms : m ≠ sid := ((mem_serase _ _ _).mp hm2).2
      rw [if_neg hms]
      constructor
      · intro hflagM
        have hmrs : m ∈ roomMembers st u.roomId := by
          rw [hrsm]; exact ((mem_serase _ _ _).mp hm2).1
        have : m ∈ hostsOfRoom st u.roomId := List.mem_filter.mpr ⟨hmrs, hflagM⟩
        rw [hsing] at this
        exact List.mem_singleton.mp this
      · intro hmeq
        rw [hmeq]
        exact hstarmem.2
  · refine @hostUniqueRoom_of_eq st _ _ ?_ ?_ (hostUniqueAll_lookup hun p.1)
    · rw [hmembers p.1, if_neg hr]
    · intro m hm2
      rw [hflags]
      have hms : m ≠ sid := fun hc => sid_not_in_other hco hm hr (hc ▸ hm2)
      rw [if_neg hms]

theorem disconnect_empty_unique
    (st : ServerState) (sid : String) (u : User) (rs : List String)
    (hco : roomsCoherent st)
    (hun : hostUniqueAll st)
    (hm : alookup sid st.connectedUsers = some u)
    (hemp : serase sid rs = [])
    (st2 : ServerState)
    (h2r : st2.rooms = aerase u.roomId (ainsert u.roomId (serase sid rs) st.rooms))
    (h2u : st2.connectedUsers = aerase sid st.connectedUsers) :
    hostUniqueAll st2 := by
  have hmembers : ∀ r, roomMembers st2 r =
      if r = u.roomId then [] else roomMembers st r := by
    intro r
    by_cases hr : r = u.roomId
    · unfold roomMembers
      rw [h2r, alookup_aerase, if_pos hr, if_pos hr]
    · unfold roomMembers
      rw [h2r, alookup_aerase, if_neg hr, if_neg hr, alookup_ainsert, if_neg hr]
  have hflags : ∀ m, userHostFlag st2 m =
      if m = sid then false else userHostFlag st m := by
    intro m
    unfold userHostFlag
    rw [h2u, alookup_aerase]
    by_cases hms : m = sid
    · simp [hms]
    · rw [if_neg hms, if_neg hms]
  intro p hp
  by_cases hr : p.1 = u.roomId
  · rw [hr]
    exact hostUniqueRoom_of_empty (by rw [hmembers u.roomId, if_pos rfl])
  · refine @hostUniqueRoom_of_eq st _ _ ?_ ?_ (hostUniqueAll_lookup hun p.1)
    · rw [hmembers p.1, if_neg hr]
    · intro m hm2
      rw [hflags]
      have hms : m ≠ sid := fun hc => sid_not_in_other hco hm hr (hc ▸ hm2)
      rw [if_neg hms]

theorem disconnect_core
    (st : ServerState)
    (hco : roomsCoherent st) (hrec : recordInRoom st) (hnd : membersNodup st)
    (hun : hostUniqueAll st) (now reason sid : String) :
    hostUniqueAll (disconnectHandler now reason st sid).1 := by
  unfold disconnectHandler
  cases hm : alookup sid st.connectedUsers with
  | none => exact hostUniqueAll_ext st _ rfl rfl hun
  | some u =>
    dsimp only []
    cases hrm : alookup u.roomId st.rooms with
    | none =>
      exact absurd (hrec (sid, u) (alookup_mem sid u _ hm))
        (by simp [roomMembers, hrm])
    | some rs =>
      dsimp only []
      by_cases hcond : u.isHost = true ∧ serase sid rs ≠ []
      · rw [if_pos hcond]
        cases hh : (serase sid rs).head? with
        | none =>
          exfalso
          cases hsr : serase sid rs with
          | nil => exact hcond.2 hsr
          | cons a t => rw [hsr] at hh; cases hh
        | some h =>
          dsimp only []
          have hhmem : h ∈ roomMembers st u.roomId := by
            have : h ∈ serase sid rs := by
              cases hsr : serase sid rs with
              | nil => exact absurd hsr hcond.2
              | cons a t =>
                rw [hsr] at hh
                injection hh with hh2
                subst hh2
                exact List.mem_cons_self _ _
            simp only [roomMembers, hrm]
            exact ((mem_serase _ _ _).mp this).1
          cases hv : alookup h st.connectedUsers with
          | none =>
            exfalso
            rcases coherent_record hco hhmem with ⟨w, hw, _⟩
            rw [hv] at hw
            cases hw
          | some v =>
            dsimp only []
            have hef : (serase sid rs).isEmpty = false := by
              cases hsr : serase sid rs with
              | nil => exact absurd hsr hcond.2
              | cons a t => rfl
            simp only [hef, Bool.false_eq_true, if_false]
            exact disconnect_promo_unique st sid u v h rs hco hrec hnd hun hm hrm
              hcond.1 hh hv _ rfl rfl
      · rw [if_neg hcond]
        by_cases hemp : serase sid rs = []
        · have hef : (serase sid rs).isEmpty = true := by rw [hemp]; rfl
          simp only [hef, if_true]
          exact disconnect_empty_unique st sid u rs hco hun hm hemp _ rfl rfl
        · have hef : (serase sid rs).isEmpty = false := by
            cases hsr : serase sid rs with
            | nil => exact absurd hsr hemp
            | cons a t => rfl
          simp only [hef, Bool.false_eq_true, if_false]
          have hhost : u.isHost = false := by
            cases hhv : u.isHost
            · rfl
            · exact absurd ⟨hhv, hemp⟩ hcond
          exact disconnect_nonhost_unique st sid u rs hco hnd hun hm hrm hhost hemp
            _ rfl rfl

theorem disconnect_preserves
    (st : ServerState)
    (hco : roomsCoherent st) (hrec : recordInRoom st) (hnd : membersNodup st)
    (hun : hostUniqueAll st) (now reason sid : String) :
    hostUniqueAll (transportDisconnect now reason st sid).1 := by
  unfold transportDisconnect
  dsimp only []
  apply disconnect_core
  · exact hco
  · exact hrec
  · exact hnd
  · exact hun

/-- Relation between a base state and a state obtained from it by the
    join-room cleanups (duplicate-session preemption and stale-socket
    removal): records are only deleted, never changed, room sets only
    shrink, a set removal is always paired with the record deletion, the
    host map is untouched, and coherence and duplicate-freedom persist. -/
structure CleanupRel (st0 stx : ServerState) : Prop where
  users : ∀ m, alookup m stx.connectedUsers = alookup m st0.connectedUsers ∨
    alookup m stx.connectedUsers = none
  memSub : ∀ r m, m ∈ roomMembers stx r → m ∈ roomMembers st0 r
  memPair : ∀ r m, m ∈ roomMembers st0 r → m ∈ roomMembers stx r ∨
    alookup m stx.connectedUsers = none
  hosts : stx.roomHosts = st0.roomHosts
  coh : roomsCoherent stx
  nodup : membersNodup stx

theorem CleanupRel.refl (st0 : ServerState) (hco : roomsCoherent st0)
    (hnd : membersNodup st0) : CleanupRel st0 st0 :=
  ⟨fun m => Or.inl rfl, fun _ _ h => h, fun _ m h => Or.inl h, rfl, hco, hnd⟩

theorem CleanupRel.trans {a b c : ServerState}
    (h1 : CleanupRel a b) (h2 : CleanupRel b c) : CleanupRel a c := by
  refine ⟨?_, ?_, ?_, h2.hosts.trans h1.hosts, h2.coh, h2.nodup⟩
  · intro m
    rcases h2.users m with hc | hc
    · rw [hc]
      exact h1.users m
    · exact Or.inr hc
  · intro r m hm
    exact h1.memSub r m (h2.memSub r m hm)
  · intro r m hm
    rcases h1.memPair r m hm with hb | hb
    · exact h2.memPair r m hb
    · rcases h2.users m with hc | hc
      · rw [hc, hb]
        exact Or.inr rfl
      · exact Or.inr hc

theorem CleanupRel.remove {st0 acc : ServerState} (rel : CleanupRel st0 acc)
    (x R : String)
    (honly : ∀ r, x ∈ roomMembers acc r → r = R)
    (st2 : ServerState)
    (h2r : st2.rooms = ainsert R (serase x (roomMembers acc R)) acc.rooms)
    (h2u : st2.connectedUsers = aerase x acc.connectedUsers)
    (h2h : st2.roomHosts = acc.roomHosts) :
    CleanupRel st0 st2 := by
  have hmembers : ∀ r, roomMembers st2 r =
      if r = R then serase x (roomMembers acc R) else roomMembers acc r := by
    intro r
    by_cases hr : r = R
    · unfold roomMembers
      rw [h2r, alookup_ainsert, if_pos hr, if_pos hr]
      rfl
    · unfold roomMembers
      rw [h2r, alookup_ainsert, if_neg hr, if_neg hr]
  have husers : ∀ m, alookup m st2.connectedUsers =
      if m = x then none else alookup m acc.connectedUsers := by
    intro m
    rw [h2u, alookup_aerase]
  refine ⟨?_, ?_, ?_, h2h.trans rel.hosts, ?_, ?_⟩
  · intro m
    rw [husers]
    by_cases hm : m = x
    · rw [if_pos hm]
      exact Or.inr rfl
    · rw [if_neg hm]
      exact rel.users m
  · intro r m hm
    rw [hmembers] at hm
    by_cases hr : r = R
    · rw [if_pos hr] at hm
      exact rel.memSub r m (by rw [hr]; exact ((mem_serase _ _ _).mp hm).1)
    · rw [if_neg hr] at hm
      exact rel.memSub r m hm
  · intro r m hm
    rcases rel.memPair r m hm with hacc | hacc
    · by_cases hmx : m = x
      · refine Or.inr ?_
        rw [husers, if_pos hmx]
      · refine Or.inl ?_
        rw [hmembers]
        by_cases hr : r = R
        · rw [if_pos hr]
          exact (mem_serase _ _ _).mpr ⟨by rw [← hr]; exact hacc, hmx⟩
        · rw [if_neg hr]
          exact hacc
    · refine Or.inr ?_
      rw [husers]
      by_cases hmx : m = x
      · rw [if_pos hmx]
      · rw [if_neg hmx]
        exact hacc
  · intro p hp m hm
    rw [hmembers] at hm
    unfold memberCoherent
    rw [husers]
    by_cases hr : p.1 = R
    · rw [if_pos hr] at hm
      have hmx : m ≠ x := ((mem_serase _ _ _).mp hm).2
      rw [if_neg hmx]
      have hmacc : m ∈ roomMembers acc p.1 := by
        rw [hr]
        exact ((mem_serase _ _ _).mp hm).1
      have := roomsCoherent_lookup rel.coh p.1 m hmacc
      unfold memberCoherent at this
      exact this
    · rw [if_neg hr] at hm
      have hmx : m ≠ x := fun hc => hr (honly p.1 (hc ▸ hm))
      rw [if_neg hmx]
      have := roomsCoherent_lookup rel.coh p.1 m hm
      unfold memberCoherent at this
      exact this
  · intro p hp
    rw [hmembers]
    by_cases hr : p.1 = R
    · rw [if_pos hr]
      exact nodup_serase x _ (membersNodup_lookup rel.nodup R)
    · rw [if_neg hr]
      exact membersNodup_lookup rel.nodup p.1

theorem CleanupRel.eraseUser {st0 acc : ServerState} (rel : CleanupRel st0 acc)
    (x : String)
    (hnomem : ∀ r, x ∉ roomMembers acc r)
    (st2 : ServerState)
    (h2r : st2.rooms = acc.rooms)
    (h2u : st2.connectedUsers = aerase x acc.connectedUsers)
    (h2h : st2.roomHosts = acc.roomHosts) :
    CleanupRel st0 st2 := by
  have hmembers : ∀ r, roomMembers st2 r = roomMembers acc r := by
    intro r
    unfold roomMembers
    rw [h2r]
  have husers : ∀ m, alookup m st2.connectedUsers =
      if m = x then none else alookup m acc.connectedUsers := by
    intro m
    rw [h2u, alookup_aerase]
  refine ⟨?_, ?_, ?_, h2h.trans rel.hosts, ?_, ?_⟩
  · intro m
    rw [husers]
    by_cases hm : m = x
    · rw [if_pos hm]; exact Or.inr rfl
    · rw [if_neg hm]; exact rel.users m
  · intro r m hm
    rw [hmembers] at hm
    exact rel.memSub r m hm
  · intro r m hm
    rcases rel.memPair r m hm with hacc | hacc
    · exact Or.inl (by rw [hmembers]; exact hacc)
    · refine Or.inr ?_
      rw [husers]
      by_cases hmx : m = x
      · rw [if_pos hmx]
      · rw [if_neg hmx]; exact hacc
  · intro p hp m hm
    rw [hmembers] at hm
    unfold memberCoherent
    rw [husers]
    have hmx : m ≠ x := fun hc => hnomem p.1 (hc ▸ hm)
    rw [if_neg hmx]
    have := roomsCoherent_lookup rel.coh p.1 m hm
    unfold memberCoherent at this
    exact this
  · intro p hp
    rw [hmembers]
    exact membersNodup_lookup rel.nodup p.1

theorem CleanupRel_congr {st0 acc st2 : ServerState} (rel : CleanupRel st0 acc)
    (h2r : st2.rooms = acc.rooms) (h2u : st2.connectedUsers = acc.connectedUsers)
    (h2h : st2.roomHosts = acc.roomHosts) : CleanupRel st0 st2 := by
  have hmembers : ∀ r, roomMembers st2 r = roomMembers acc r := by
    intro r
    unfold roomMembers
    rw [h2r]
  have husers : ∀ m, alookup m st2.connectedUsers = alookup m acc.connectedUsers := by
    intro m
    rw [h2u]
  refine ⟨?_, ?_, ?_, h2h.trans rel.hosts, ?_, ?_⟩
  · intro m
    rw [husers]
    exact rel.users m
  · intro r m hm
    rw [hmembers] at hm
    exact rel.memSub r m hm
  · intro r m hm
    rcases rel.memPair r m hm with hc | hc
    · exact Or.inl (by rw [hmembers]; exact hc)
    · exact Or.inr (by rw [husers]; exact hc)
  · intro p hp m hm
    rw [hmembers] at hm
    unfold memberCoherent
    rw [husers]
    have := roomsCoherent_lookup rel.coh p.1 m hm
    unfold memberCoherent at this
    exact this
  · intro p hp
    rw [hmembers]
    exact membersNodup_lookup rel.nodup p.1

theorem disconnectHandler_no_record (now reason : String) (st : ServerState)
    (sid : String) (h : alookup sid st.connectedUsers = none) :
    disconnectHandler now reason st sid =
      ({ st with connectionHealth := aerase sid st.connectionHealth }, []) := by
  unfold disconnectHandler
  rw [h]

theorem preemptOld_rel {st0 : ServerState} (now userName newSockId : String)
    (acc : ServerState × List EmitAction) (x : String)
    (rel : CleanupRel st0 acc.1) :
    CleanupRel st0 (preemptOld now userName newSockId acc x).1 := by
  unfold preemptOld
  by_cases hx : x = newSockId
  · rw [if_pos hx]
    exact rel
  · rw [if_neg hx]
    dsimp only []
    cases ho : alookup x acc.1.connectedUsers with
    | none =>
      dsimp only []
      by_cases hl : shas x acc.1.liveSockets = true
      · rw [if_pos hl]
        unfold transportDisconnect
        dsimp only []
        rw [disconnectHandler_no_record now reasonDuplicate _ x (by exact ho)]
        exact CleanupRel_congr rel rfl rfl rfl
      · rw [if_neg hl]
        exact rel
    | some oldUser =>
      dsimp only []
      have hrel1 : CleanupRel st0
          { acc.1 with
            rooms :=
              (match alookup oldUser.roomId acc.1.rooms with
               | some s => ainsert oldUser.roomId (serase x s) acc.1.rooms
               | none => acc.1.rooms),
            connectedUsers := aerase x acc.1.connectedUsers,
            connectionHealth := aerase x acc.1.connectionHealth } := by
        cases hrm : alookup oldUser.roomId acc.1.rooms with
        | some s =>
          have hs : s = roomMembers acc.1 oldUser.roomId := by
            simp [roomMembers, hrm]
          refine CleanupRel.remove rel x oldUser.roomId ?_ _ ?_ rfl rfl
          · intro r hmem
            have hcm := roomsCoherent_lookup rel.coh r x hmem
            unfold memberCoherent at hcm
            rw [ho, beq_iff_eq] at hcm
            exact hcm.symm
          · dsimp only []
            rw [hs]
        | none =>
          refine CleanupRel.eraseUser rel x ?_ _ ?_ rfl rfl
          · intro r hmem
            have hcm := roomsCoherent_lookup rel.coh r x hmem
            unfold memberCoherent at hcm
            rw [ho, beq_iff_eq] at hcm
            subst hcm
            have : roomMembers acc.1 oldUser.roomId = [] := by
              simp [roomMembers, hrm]
            rw [this] at hmem
            simp at hmem
          · rfl
      by_cases hl : shas x acc.1.liveSockets = true
      · rw [if_pos hl]
        unfold transportDisconnect
        dsimp only []
        rw [disconnectHandler_no_record now reasonDuplicate _ x
          (by dsimp only []; rw [alookup_aerase, if_pos rfl])]
        exact CleanupRel_congr hrel1 rfl rfl rfl
      · rw [if_neg hl]
        exact hrel1

theorem preemptFold_rel {st0 : ServerState} (now userName newSockId : String)
    (l : List String) (acc : ServerState × List EmitAction)
    (rel : CleanupRel st0 acc.1) :
    CleanupRel st0 (l.foldl (preemptOld now userName newSockId) acc).1 := by
  induction l generalizing acc with
  | nil => exact rel
  | cons x xs ih =>
    exact ih _ (preemptOld_rel now userName newSockId acc x rel)

theorem staleRemove_rel {st4 : ServerState} (now sockId roomId : String)
    (hco4 : roomsCoherent st4)
    (acc : ServerState × List EmitAction) (m : String)
    (rel : CleanupRel st4 acc.1)
    (hmem : m ∈ roomMembers st4 roomId) :
    CleanupRel st4 (staleRemove now sockId roomId acc m).1 := by
  unfold staleRemove
  dsimp only []
  refine CleanupRel.remove rel m roomId ?_ _ rfl rfl rfl
  intro r hr
  have hcm := roomsCoherent_lookup rel.coh r m hr
  unfold memberCoherent at hcm
  cases hacc : alookup m acc.1.connectedUsers with
  | none => rw [hacc] at hcm; simp at hcm
  | some w =>
    rw [hacc] at hcm
    rw [beq_iff_eq] at hcm
    have hst4 : alookup m st4.connectedUsers = some w := by
      rcases rel.users m with hc | hc
      · rw [← hc]; exact hacc
      · rw [hacc] at hc; cases hc
    have hcm4 := roomsCoherent_lookup hco4 roomId m hmem
    unfold memberCoherent at hcm4
    rw [hst4] at hcm4
    rw [beq_iff_eq] at hcm4
    rw [← hcm, hcm4]

theorem staleFold_rel {st4 : ServerState} (now sockId roomId : String)
    (hco4 : roomsCoherent st4)
    (l : List String) (acc : ServerState × List EmitAction)
    (rel : CleanupRel st4 acc.1)
    (hl : ∀ m ∈ l, m ∈ roomMembers st4 roomId) :
    CleanupRel st4 (l.foldl (staleRemove now sockId roomId) acc).1 := by
  induction l generalizing acc with
  | nil => exact rel
  | cons x xs ih =>
    exact ih _ (staleRemove_rel now sockId roomId hco4 acc x rel
      (hl x (List.mem_cons_self x xs)))
      (fun m hm => hl m (List.mem_cons_of_mem x hm))

theorem ensureRoom_members_all (st : ServerState) (roomId : String)
    (uid : Option String) :
    ∀ r, roomMembers (ensureRoom st roomId uid) r = roomMembers st r := by
  intro r
  unfold ensureRoom
  cases hl : alookup roomId st.rooms with
  | some mem => rfl
  | none =>
    dsimp only []
    unfold roomMembers
    by_cases hr : r = roomId
    · rw [alookup_ainsert, if_pos hr, hr, hl]
    · rw [alookup_ainsert, if_neg hr]

theorem ensureRoom_users (st : ServerState) (roomId : String) (uid : Option String) :
    (ensureRoom st roomId uid).connectedUsers = st.connectedUsers := by
  unfold ensureRoom
  cases alookup roomId st.rooms <;> rfl

theorem ensureRoom_hosts (st : ServerState) (roomId : String) (uid : Option String) :
    (ensureRoom st roomId uid).roomHosts = st.roomHosts := by
  unfold ensureRoom
  cases alookup roomId st.rooms <;> rfl

theorem CleanupRel_ensure (st : ServerState) (roomId : String) (uid : Option String)
    (hco : roomsCoherent st) (hnd : membersNodup st) :
    CleanupRel st (ensureRoom st roomId uid) := by
  have hm := ensureRoom_members_all st roomId uid
  have hu := ensureRoom_users st roomId uid
  have hh := ensureRoom_hosts st roomId uid
  refine ⟨?_, ?_, ?_, hh, ?_, ?_⟩
  · intro m
    rw [hu]
    exact Or.inl rfl
  · intro r m hmem
    rw [hm] at hmem
    exact hmem
  · intro r m hmem
    exact Or.inl (by rw [hm]; exact hmem)
  · intro p hp m hmem
    rw [hm] at hmem
    unfold memberCoherent
    rw [hu]
    have := roomsCoherent_lookup hco p.1 m hmem
    unfold memberCoherent at this
    exact this
  · intro p hp
    rw [hm]
    exact membersNodup_lookup hnd p.1

theorem joinCleanup_rel (now sockId roomId userName : String) (st1 : ServerState)
    (hco1 : roomsCoherent st1) (hnd1 : membersNodup st1) :
    CleanupRel st1 (joinCleanup now sockId roomId userName st1).1 := by
  unfold joinCleanup
  dsimp only []
  have step : ∀ (st4 : ServerState), CleanupRel st1 st4 →
      ∀ (l : List String), (∀ m ∈ l, m ∈ roomMembers st4 roomId) →
      CleanupRel st1 ((l.foldl (staleRemove now sockId roomId) (st4, [])).1) := by
    intro st4 rel4 l hl
    have rel44 : CleanupRel st4 st4 := CleanupRel.refl st4 rel4.coh rel4.nodup
    exact CleanupRel.trans rel4 (staleFold_rel now sockId roomId rel4.coh l (st4, []) rel44 hl)
  cases hsess : alookup userName st1.userSessions with
  | none =>
    dsimp only []
    apply step
    · exact CleanupRel_congr (CleanupRel.refl st1 hco1 hnd1) rfl rfl rfl
    · intro m hm
      exact List.mem_filter.mp hm |>.1
  | some sess =>
    dsimp only []
    by_cases hemp : sess.isEmpty = true
    · rw [if_pos hemp]
      dsimp only []
      apply step
      · exact CleanupRel_congr (CleanupRel.refl st1 hco1 hnd1) rfl rfl rfl
      · intro m hm
        exact List.mem_filter.mp hm |>.1
    · rw [if_neg hemp]
      dsimp only []
      apply step
      · exact CleanupRel_congr
          (preemptFold_rel now userName sockId sess (st1, [])
            (CleanupRel.refl st1 hco1 hnd1)) rfl rfl rfl
      · intro m hm
        exact List.mem_filter.mp hm |>.1

theorem sock_not_member {st st5 : ServerState} (rel : CleanupRel st st5)
    {sockId : String} (hfresh5 : alookup sockId st5.connectedUsers = none)
    (r : String) : sockId ∉ roomMembers st5 r := by
  intro hc
  have := roomsCoherent_lookup rel.coh r sockId hc
  unfold memberCoherent at this
  rw [hfresh5] at this
  simp at this

theorem record5_eq {st st5 : ServerState} (rel : CleanupRel st st5)
    {m : String} {w : User} (h : alookup m st5.connectedUsers = some w) :
    alookup m st.connectedUsers = some w := by
  rcases rel.users m with hc | hc
  · rw [← hc]; exact h
  · rw [h] at hc; cases hc

theorem flag5_eq_flag {st st5 : ServerState} (rel : CleanupRel st st5)
    {m : String} {w : User} (h : alookup m st5.connectedUsers = some w) :
    userHostFlag st5 m = userHostFlag st m := by
  unfold userHostFlag
  rw [h, record5_eq rel h]

theorem finalize_keep_unique
    (st st5 : ServerState) (rel : CleanupRel st st5)
    (hun : hostUniqueAll st) (hmap : hostMapCoherent st)
    (sockId roomId : String) (w : User)
    (hfresh5 : alookup sockId st5.connectedUsers = none)
    (hwHost : w.isHost = false)
    (hche : currentHostExistsB st5 roomId = true)
    (hne5 : roomMembers st5 roomId ≠ [])
    (st7 : ServerState)
    (h7r : st7.rooms = ainsert roomId (sadd sockId (roomMembers st5 roomId)) st5.rooms)
    (h7u : st7.connectedUsers = ainsert sockId w st5.connectedUsers) :
    hostUniqueRoom st7 roomId := by
  have hsock5 : sockId ∉ roomMembers st5 roomId :=
    sock_not_member rel hfresh5 roomId
  have hmem7 : roomMembers st7 roomId = sadd sockId (roomMembers st5 roomId) := by
    unfold roomMembers
    rw [h7r, alookup_ainsert, if_pos rfl]
    unfold roomMembers
    rfl
  have hflag7 : ∀ m, userHostFlag st7 m =
      if m = sockId then w.isHost else userHostFlag st5 m := by
    intro m
    unfold userHostFlag
    rw [h7u, alookup_ainsert]
    by_cases hm : m = sockId
    · simp [hm]
    · rw [if_neg hm, if_neg hm]
  -- extract the surviving host H from the currentHostExists check
  unfold currentHostExistsB at hche
  cases hH : alookup roomId st5.roomHosts with
  | none => rw [hH] at hche; cases hche
  | some H =>
    rw [hH] at hche
    simp only [Bool.and_eq_true] at hche
    rcases hche with ⟨hHne, hHsome⟩
    cases hHrec : alookup H st5.connectedUsers with
    | none => rw [hHrec] at hHsome; cases hHsome
    | some uH =>
      have hHst : alookup H st.connectedUsers = some uH := record5_eq rel hHrec
      have hHmap : alookup roomId st.roomHosts = some H := by
        rw [← rel.hosts]; exact hH
      have hmemstne : roomMembers st roomId ≠ [] := by
        rcases List.exists_mem_of_ne_nil _ hne5 with ⟨m0, hm0⟩
        intro hc
        have := rel.memSub roomId m0 hm0
        rw [hc] at this
        simp at this
      have hpo := hostMapCoherent_lookup hmap roomId hmemstne
      unfold hostPointerOk at hpo
      rw [hHmap] at hpo
      simp only [Bool.and_eq_true] at hpo
      rcases hpo with ⟨⟨_, hpoMem⟩, hpoFlag⟩
      have hHmemst : H ∈ roomMembers st roomId := (shas_iff _ _).mp hpoMem
      have hHmem5 : H ∈ roomMembers st5 roomId := by
        rcases rel.memPair roomId H hHmemst with hc | hc
        · exact hc
        · rw [hHrec] at hc; cases hc
      have hHsock : H ≠ sockId := by
        intro hc
        rw [hc, hfresh5] at hHrec
        cases hHrec
      refine hostUniqueRoom_of_singleton (a := H) ?_
      unfold hostsOfRoom
      rw [hmem7]
      refine filter_eq_singleton ?_ ?_ ?_
      · exact nodup_sadd sockId _ (membersNodup_lookup rel.nodup roomId)
      · exact (mem_sadd _ _ _).mpr (Or.inl hHmem5)
      · intro m hm
        rw [hflag7]
        rcases (mem_sadd _ _ _).mp hm with hm5 | hmsock
        · have hms : m ≠ sockId := fun hc => hsock5 (hc ▸ hm5)
          rw [if_neg hms]
          rcases coherent_record rel.coh hm5 with ⟨wm, hwm, _⟩
          rw [flag5_eq_flag rel hwm]
          constructor
          · intro hflagM
            by_contra hmH
            have hmmemst : m ∈ roomMembers st roomId := rel.memSub roomId m hm5
            have h1 : m ∈ hostsOfRoom st roomId := List.mem_filter.mpr ⟨hmmemst, hflagM⟩
            have h2 : H ∈ hostsOfRoom st roomId := List.mem_filter.mpr ⟨hHmemst, hpoFlag⟩
            exact two_mem_not_length_le_one h1 h2 hmH (hostUniqueAll_lookup hun roomId).1
          · intro hmeq
            subst hmeq
            rw [show userHostFlag st m = true from hpoFlag]
        · rw [if_pos hmsock, hwHost]
          simp only [Bool.false_eq_true, false_iff]
          rw [hmsock]
          exact fun hc => hHsock hc.symm

theorem finalize_demote_unique
    (st st5 : ServerState) (rel : CleanupRel st st5)
    (hun : hostUniqueAll st) (hmap : hostMapCoherent st)
    (sockId roomId : String) (w : User)
    (hfresh5 : alookup sockId st5.connectedUsers = none)
    (hwHost : w.isHost = true)
    (H : String) (uH : User)
    (hH : alookup roomId st5.roomHosts = some H)
    (hHrec : alookup H st5.connectedUsers = some uH)
    (hHs : H ≠ sockId)
    (st7 : ServerState)
    (h7r : st7.rooms = ainsert roomId (sadd sockId (roomMembers st5 roomId)) st5.rooms)
    (h7u : st7.connectedUsers =
      ainsert H { uH with isHost := false } (ainsert sockId w st5.connectedUsers)) :
    hostUniqueRoom st7 roomId := by
  have hsock5 : sockId ∉ roomMembers st5 roomId :=
    sock_not_member rel hfresh5 roomId
  have hmem7 : roomMembers st7 roomId = sadd sockId (roomMembers st5 roomId) := by
    unfold roomMembers
    rw [h7r, alookup_ainsert, if_pos rfl]
    unfold roomMembers
    rfl
  have hflagSock : userHostFlag st7 sockId = true := by
    unfold userHostFlag
    rw [h7u, alookup_ainsert, if_neg (fun hc => hHs hc.symm),
      alookup_ainsert, if_pos rfl]
    exact hwHost
  have hflagH : userHostFlag st7 H = false := by
    unfold userHostFlag
    rw [h7u, alookup_ainsert, if_pos rfl]
  have hflagOther : ∀ m, m ≠ sockId → m ≠ H →
      userHostFlag st7 m = userHostFlag st5 m := by
    intro m hms hmH
    unfold userHostFlag
    rw [h7u, alookup_ainsert, if_neg hmH, alookup_ainsert, if_neg hms]
  refine hostUniqueRoom_of_singleton (a := sockId) ?_
  unfold hostsOfRoom
  rw [hmem7]
  refine filter_eq_singleton ?_ ?_ ?_
  · exact nodup_sadd sockId _ (membersNodup_lookup rel.nodup roomId)
  · exact (mem_sadd _ _ _).mpr (Or.inr rfl)
  · intro m hm
    rcases (mem_sadd _ _ _).mp hm with hm5 | hmsock
    · have hms : m ≠ sockId := fun hc => hsock5 (hc ▸ hm5)
      by_cases hmH : m = H
      · subst hmH
        rw [hflagH]
        simp [hms]
      · rw [hflagOther m hms hmH]
        have hflag5 : userHostFlag st5 m = false := by
          cases hv : userHostFlag st5 m
          · rfl
          · exfalso
            unfold userHostFlag at hv
            cases hlook : alookup m st5.connectedUsers with
            | none => rw [hlook] at hv; cases hv
            | some wm =>
              rw [hlook] at hv
              have hmst : alookup m st.connectedUsers = some wm := record5_eq rel hlook
              have hmmemst : m ∈ roomMembers st roomId := rel.memSub roomId m hm5
              have hmemstne : roomMembers st roomId ≠ [] := List.ne_nil_of_mem hmmemst
              have hpo := hostMapCoherent_lookup hmap roomId hmemstne
              unfold hostPointerOk at hpo
              have hHmap : alookup roomId st.roomHosts = some H := by
                rw [← rel.hosts]
                exact hH
              rw [hHmap] at hpo
              simp only [Bool.and_eq_true] at hpo
              rcases hpo with ⟨⟨_, hpoMem⟩, hpoFlag⟩
              have hHmemst : H ∈ roomMembers st roomId := (shas_iff _ _).mp hpoMem
              have hflagm : userHostFlag st m = true := by
                unfold userHostFlag
                rw [hmst]
                exact hv
              have h1 : m ∈ hostsOfRoom st roomId := List.mem_filter.mpr ⟨hmmemst, hflagm⟩
              have h2 : H ∈ hostsOfRoom st roomId := List.mem_filter.mpr ⟨hHmemst, hpoFlag⟩
              exact two_mem_not_length_le_one h1 h2 hmH (hostUniqueAll_lookup hun roomId).1
        rw [hflag5]
        simp [hms]
    · rw [hmsock, hflagSock]
      simp

theorem finalize_fresh_host_unique
    (st st5 : ServerState) (rel : CleanupRel st st5)
    (sockId roomId : String) (w : User)
    (hfresh5 : alookup sockId st5.connectedUsers = none)
    (hwHost : w.isHost = true)
    (hnosur : ∀ m ∈ roomMembers st5 roomId, userHostFlag st5 m = false)
    (st7 : ServerState)
    (h7r : st7.rooms = ainsert roomId (sadd sockId (roomMembers st5 roomId)) st5.rooms)
    (h7u : st7.connectedUsers = ainsert sockId w st5.connectedUsers) :
    hostUniqueRoom st7 roomId := by
  have hsock5 : sockId ∉ roomMembers st5 roomId :=
    sock_not_member rel hfresh5 roomId
  have hmem7 : roomMembers st7 roomId = sadd sockId (roomMembers st5 roomId) := by
    unfold roomMembers
    rw [h7r, alookup_ainsert, if_pos rfl]
    unfold roomMembers
    rfl
  have hflag7 : ∀ m, userHostFlag st7 m =
      if m = sockId then w.isHost else userHostFlag st5 m := by
    intro m
    unfold userHostFlag
    rw [h7u, alookup_ainsert]
    by_cases hm : m = sockId
    · simp [hm]
    · rw [if_neg hm, if_neg hm]
  refine hostUniqueRoom_of_singleton (a := sockId) ?_
  unfold hostsOfRoom
  rw [hmem7]
  refine filter_eq_singleton ?_ ?_ ?_
  · exact nodup_sadd sockId _ (membersNodup_lookup rel.nodup roomId)
  · exact (mem_sadd _ _ _).mpr (Or.inr rfl)
  · intro m hm
    rw [hflag7]
    rcases (mem_sadd _ _ _).mp hm with hm5 | hmsock
    · have hms : m ≠ sockId := fun hc => hsock5 (hc ▸ hm5)
      rw [if_neg hms, hnosur m hm5]
      simp [hms]
    · rw [if_pos hmsock, hwHost]
      simp [hmsock]

theorem finalize_unique
    (st : ServerState) (hun : hostUniqueAll st) (hmap : hostMapCoherent st)
    (st5 : ServerState) (rel : CleanupRel st st5)
    (now sockId roomId userName : String) (uid : Option String)
    (hfresh : alookup sockId st.connectedUsers = none) :
    hostUniqueRoom (joinFinalize now sockId roomId userName uid st5).1 roomId := by
  have hfresh5 : alookup sockId st5.connectedUsers = none := by
    rcases rel.users sockId with hc | hc
    · rw [hc]
      exact hfresh
    · exact hc
  unfold joinFinalize
  dsimp only []
  by_cases hsbh : shouldBeHostB uid st5 roomId = true
  · rw [if_pos hsbh]
    by_cases hdem : (isCreatorB uid st5 roomId && currentHostExistsB st5 roomId &&
        (alookup roomId st5.roomHosts != some sockId)) = true
    · rw [if_pos hdem]
      have hdem2 := hdem
      simp only [Bool.and_eq_true] at hdem2
      rcases hdem2 with ⟨⟨hic, hche⟩, hbne⟩
      cases hH : alookup roomId st5.roomHosts with
      | none =>
        exfalso
        unfold currentHostExistsB at hche
        rw [hH] at hche
        cases hche
      | some H =>
        have hHs : H ≠ sockId := by
          rw [hH] at hbne
          intro hc
          subst hc
          simp at hbne
        unfold currentHostExistsB at hche
        rw [hH] at hche
        simp only [Bool.and_eq_true] at hche
        rcases hche with ⟨hHne, hHsome⟩
        cases hHrec : alookup H st5.connectedUsers with
        | none =>
          rw [hHrec] at hHsome
          simp at hHsome
        | some uH =>
          dsimp only []
          have hlook6 : alookup H
              (ainsert sockId (joinNewUser now sockId roomId userName uid st5)
                st5.connectedUsers) = some uH := by
            rw [alookup_ainsert, if_neg hHs]
            exact hHrec
          rw [hlook6]
          exact finalize_demote_unique st st5 rel hun hmap sockId roomId
            (joinNewUser now sockId roomId userName uid st5) hfresh5 hsbh
            H uH hH hHrec hHs _ rfl rfl
    · rw [if_neg hdem]
      have hnosur : ∀ m ∈ roomMembers st5 roomId, userHostFlag st5 m = false := by
        intro m hm5
        cases hv : userHostFlag st5 m
        · rfl
        exfalso
        unfold userHostFlag at hv
        cases hlook : alookup m st5.connectedUsers with
        | none =>
          rw [hlook] at hv
          cases hv
        | some wm =>
          rw [hlook] at hv
          have hmst : alookup m st.connectedUsers = some wm := record5_eq rel hlook
          have hmmemst : m ∈ roomMembers st roomId := rel.memSub roomId m hm5
          have hmemstne : roomMembers st roomId ≠ [] := List.ne_nil_of_mem hmmemst
          have hpo := hostMapCoherent_lookup hmap roomId hmemstne
          unfold hostPointerOk at hpo
          cases hHp : alookup roomId st.roomHosts with
          | none =>
            rw [hHp] at hpo
            cases hpo
          | some H0 =>
            rw [hHp] at hpo
            simp only [Bool.and_eq_true] at hpo
            rcases hpo with ⟨⟨hH0ne, hpoMem⟩, hpoFlag⟩
            have hH0memst : H0 ∈ roomMembers st roomId := (shas_iff _ _).mp hpoMem
            have hflagm : userHostFlag st m = true := by
              unfold userHostFlag
              rw [hmst]
              exact hv
            have hmH0 : m = H0 := by
              by_contra hc
              exact two_mem_not_length_le_one
                (List.mem_filter.mpr ⟨hmmemst, hflagm⟩)
                (List.mem_filter.mpr ⟨hH0memst, hpoFlag⟩) hc
                (hostUniqueAll_lookup hun roomId).1
            subst hmH0
            have hH5 : alookup roomId st5.roomHosts = some m := by
              rw [rel.hosts]
              exact hHp
            have hche : currentHostExistsB st5 roomId = true := by
              unfold currentHostExistsB
              rw [hH5]
              dsimp only []
              rw [hlook]
              simp only [Option.isSome_some, Bool.and_true]
              exact hH0ne
            have hempF : (roomMembers st5 roomId).isEmpty = false := by
              cases hv2 : (roomMembers st5 roomId).isEmpty
              · rfl
              · exfalso
                rw [List.isEmpty_iff] at hv2
                rw [hv2] at hm5
                simp at hm5
            have hic : isCreatorB uid st5 roomId = true := by
              have hsbh2 := hsbh
              unfold shouldBeHostB at hsbh2
              rw [hempF, hche] at hsbh2
              simpa using hsbh2
            apply hdem
            rw [hic, hche, hH5]
            have hms : m ≠ sockId := fun hc =>
              (sock_not_member rel hfresh5 roomId) (hc ▸ hm5)
            simp [hms]
      exact finalize_fresh_host_unique st st5 rel sockId roomId
        (joinNewUser now sockId roomId userName uid st5) hfresh5 hsbh hnosur
        _ rfl rfl
  · rw [if_neg hsbh]
    have hche : currentHostExistsB st5 roomId = true := by
      cases hv : currentHostExistsB st5 roomId
      · exfalso
        apply hsbh
        unfold shouldBeHostB
        rw [hv]
        simp
      · rfl
    have hne5 : roomMembers st5 roomId ≠ [] := by
      intro hc
      apply hsbh
      unfold shouldBeHostB
      rw [hc]
      simp
    have hwHost : (joinNewUser now sockId roomId userName uid st5).isHost = false := by
      show shouldBeHostB uid st5 roomId = false
      exact Bool.eq_false_iff.mpr hsbh
    exact finalize_keep_unique st st5 rel hun hmap sockId roomId
      (joinNewUser now sockId roomId userName uid st5) hfresh5 hwHost hche hne5
      _ rfl rfl

theorem join_core
    (st : ServerState) (hco : roomsCoherent st) (hnd : membersNodup st)
    (hun : hostUniqueAll st) (hmap : hostMapCoherent st)
    (now sockId roomId userName : String) (uid : Option String)
    (hfresh : alookup sockId st.connectedUsers = none) :
    hostUniqueRoom (joinRoom now st sockId roomId userName uid).1 roomId := by
  unfold joinRoom
  by_cases hv1 : roomId = "" ∨ userName = ""
  · rw [if_pos hv1]
    exact hostUniqueAll_lookup hun roomId
  rw [if_neg hv1]
  by_cases hv2 : userName.toList.contains '-' ∧ 10 < userName.length
  · rw [if_pos hv2]
    exact hostUniqueAll_lookup hun roomId
  rw [if_neg hv2]
  by_cases hv3 : 1000 ≤ st.connectedUsers.length
  · rw [if_pos hv3]
    exact hostUniqueAll_lookup hun roomId
  rw [if_neg hv3]
  dsimp only []
  by_cases hv4 : 50 ≤ (roomMembers (ensureRoom st roomId uid) roomId).length
  · rw [if_pos hv4]
    refine hostUniqueRoom_of_eq (ensureRoom_members st roomId uid) ?_
      (hostUniqueAll_lookup hun roomId)
    intro m hm
    unfold userHostFlag
    rw [ensureRoom_users]
  · rw [if_neg hv4]
    dsimp only []
    have relE := CleanupRel_ensure st roomId uid hco hnd
    have relC := joinCleanup_rel now sockId roomId userName _ relE.coh relE.nodup
    exact finalize_unique st hun hmap _ (CleanupRel.trans relE relC)
      now sockId roomId userName uid hfresh

/-- C1 (amended): in a state where every room member resolves to a live
    record naming that room, every record's id sits in its room's set,
    member sets are duplicate-free, every room has at most one host (and
    exactly one when non-empty), and the host map agrees with the member
    flags, the host-transfer handler and the transport disconnect handler
    preserve host uniqueness in every room, and join-room by a connection
    with no existing participant record preserves it for the target room.
    The original claim fails for the periodic stale sweep, which can
    delete a host record while leaving its id in a non-empty room set. -/
theorem host_uniqueness_partial_preservation
    (st : ServerState)
    (hco : roomsCoherent st) (hrec : recordInRoom st) (hnd : membersNodup st)
    (hun : hostUniqueAll st) (hmap : hostMapCoherent st) :
    (∀ s n, hostUniqueAll (hostTransferH st s n).1) ∧
    (∀ now reason sid, hostUniqueAll (transportDisconnect now reason st sid).1) ∧
    (∀ now sockId roomId userName uid,
      alookup sockId st.connectedUsers = none →
      hostUniqueRoom (joinRoom now st sockId roomId userName uid).1 roomId) :=
  ⟨fun s n => hostTransfer_preserves st hco hrec hnd hun s n,
   fun now reason sid => disconnect_preserves st hco hrec hnd hun now reason sid,
   fun now sockId roomId userName uid hfresh =>
     join_core st hco hnd hun hmap now sockId roomId userName uid hfresh⟩

/-- C1 witness: the wellformedness hypotheses hold of the concrete state
    wSt, and the theorem applied there yields host uniqueness of room RX
    after the fresh connection sX joins it as Carol. -/
theorem host_uniqueness_partial_preservation_witness :
    roomsCoherent wSt ∧ recordInRoom wSt ∧ membersNodup wSt ∧
    hostUniqueAll wSt ∧ hostMapCoherent wSt ∧
    hostUniqueRoom (joinRoom "t1" wSt "sX" "RX" "Carol" none).1 "RX" :=
  ⟨by unfold roomsCoherent; decide, by unfold recordInRoom; decide,
   by unfold membersNodup; decide,
   by unfold hostUniqueAll hostUniqueRoom; decide,
   by unfold hostMapCoherent; decide,
   (host_uniqueness_partial_preservation wSt
      (by unfold roomsCoherent; decide) (by unfold recordInRoom; decide)
      (by unfold membersNodup; decide)
      (by unfold hostUniqueAll hostUniqueRoom; decide)
      (by unfold hostMapCoherent; decide)).2.2 "t1" "sX" "RX" "Carol" none
     (by decide)⟩

end VideoStream
